import Mathlib

/-!
# Monkey HTTP Daemon: the epoll reactor (`src/epoll.c`)

A shallow embedding of `mk_epoll_init` (the wait/dispatch loop with its
timeout sweep) and of the interest registry `mk_epoll_add`, `mk_epoll_del`,
`mk_epoll_change_mode`, followed by theorems about them.

Conventions of the embedding

* C `int` values are `Int`; the 32-bit event mask of `struct epoll_event`
  is a `Nat` and `&`, `|` are `&&&`, `|||`.
* The handlers are function pointers with side effects: they are functions
  on an arbitrary world `W` that also return their `int` status.
* Every call the loop makes to the outside (`epoll_wait`, a handler,
  `mk_sched_check_timeouts`) is appended to a trace kept in the loop state,
  so that the order of calls can be stated.
* The trace is tied to the handlers by `Performs`: the calls recorded,
  applied in order to the world, return the recorded statuses and give the
  world the loop reaches.
* `while (1)` never returns: `mk_epoll_init` is given the finite list of
  what the environment supplies in the first passes of the loop and yields
  the state reached after them.
-/

namespace Monkey

/-! ## Constants of `<sys/epoll.h>` (Linux ABI) -/

def EPOLLIN : Nat := 0x001
def EPOLLPRI : Nat := 0x002
def EPOLLOUT : Nat := 0x004
def EPOLLERR : Nat := 0x008
def EPOLLHUP : Nat := 0x010
def EPOLLRDHUP : Nat := 0x2000
def EPOLLET : Nat := 0x80000000

def EPOLL_CTL_ADD : Int := 1
def EPOLL_CTL_DEL : Int := 2
def EPOLL_CTL_MOD : Int := 3

/-! Two values of `errno` (`<errno.h>`, Linux). -/

def EINTR : Int := 4
def EBADF : Int := 9

/-- The `struct epoll_event` fields the code uses: `events` and `data.fd`. -/
structure epoll_event where
  events : Nat
  fd : Int
deriving DecidableEq, Repr

/-! ## The dispatch loop -/

/-- The `mk_epoll_handlers` table. Each slot takes the descriptor and the
world; `read`, `write` and `error` return the status the loop stores in
`ret`. The value of `close` is discarded by the loop and the `timeout` slot
is never called by `epoll.c`. -/
structure mk_epoll_handlers (W : Type) where
  read : Int → W → Int × W
  write : Int → W → Int × W
  error : Int → W → Int × W
  close : Int → W → W
  timeout : Int → W → W

/-- One call made by `mk_epoll_init` to the outside. A handler call is
recorded with the status it returned, a sweep with the value of
`log_current_utime` that was compared with the deadline. -/
inductive Call where
  | epoll_wait
  | read (fd : Int) (status : Int)
  | write (fd : Int) (status : Int)
  | error (fd : Int) (status : Int)
  | close (fd : Int)
  | check_timeouts (utime : Int)
deriving DecidableEq, Repr

/-- The local variables of `mk_epoll_init` that survive an iteration, the
world the handlers act on, and the calls made so far (oldest first). -/
structure LoopState (W : Type) where
  ret : Int
  fds_timeout : Int
  world : W
  trace : List Call

/-- Storing a wider value into a C `int` (two's complement, 32 bits). The
sum `log_current_utime + config->timeout` is taken in the type of the clock,
whose declaration (`clock.h`) is not at hand and which is modelled as
unbounded; the store into `int fds_timeout` is what can wrap. -/
def toInt32 (x : Int) : Int := (x + 2147483648) % 4294967296 - 2147483648

/-- The body of `for (i = 0; i < num_fds; i++)` for the entry `ev = events[i]`
(lines 112-139). -/
def dispatch {W : Type} (h : mk_epoll_handlers W) (ev : epoll_event)
    (s : LoopState W) : LoopState W :=
  let fd := ev.fd
  let s1 : LoopState W :=
    if ev.events &&& EPOLLIN ≠ 0 then
      let r := h.read fd s.world
      { s with ret := r.1, world := r.2, trace := s.trace ++ [Call.read fd r.1] }
    else if ev.events &&& EPOLLOUT ≠ 0 then
      let r := h.write fd s.world
      { s with ret := r.1, world := r.2, trace := s.trace ++ [Call.write fd r.1] }
    else if ev.events &&& (EPOLLHUP ||| EPOLLERR ||| EPOLLRDHUP) ≠ 0 then
      let r := h.error fd s.world
      { s with ret := r.1, world := r.2, trace := s.trace ++ [Call.error fd r.1] }
    else s
  if s1.ret < 0 then
    { s1 with world := h.close fd s1.world, trace := s1.trace ++ [Call.close fd] }
  else s1

/-- The `for` loop of lines 111-140 over the entries `events[0..num_fds-1]`,
in index order. -/
def forLoop {W : Type} (h : mk_epoll_handlers W) :
    List epoll_event → LoopState W → LoopState W
  | [], s => s
  | ev :: rest, s => forLoop h rest (dispatch h ev s)

/-- What `epoll_wait` hands back: its return value, the `errno` it leaves
and the contents of the `events` buffer after the call. -/
structure WaitResult where
  num_fds : Int
  errno : Int
  events : List epoll_event
deriving DecidableEq, Repr

/-- The entries the `for` loop visits: `events[i]` for `0 ≤ i < num_fds`
(none when `num_fds ≤ 0`). -/
def WaitResult.batch (r : WaitResult) : List epoll_event :=
  r.events.take r.num_fds.toNat

/-- Lines 108-109: `ret = -1`, then the call of `epoll_wait`. This is the
state in which the `for` loop of an iteration starts. -/
def batchStart {W : Type} (s : LoopState W) : LoopState W :=
  { s with ret := -1, trace := s.trace ++ [Call.epoll_wait] }

/-- What the environment supplies during one pass of `while (1)`: the
result of `epoll_wait` and the two reads of the global `log_current_utime`,
at line 143 (`utime_check`) and at line 145 (`utime_update`). -/
structure Tick where
  wait : WaitResult
  utime_check : Int
  utime_update : Int
deriving DecidableEq, Repr

/-- One pass of the body of `while (1)` (lines 108-146). `sched_check` is
`mk_sched_check_timeouts(sched)` and `timeout` is `config->timeout`, taken
as constant during a run. The body has no `break`, `return` or exit: the
value and the `errno` of `epoll_wait` are used for the bound of the `for`
loop only. -/
def iteration {W : Type} (h : mk_epoll_handlers W) (sched_check : W → W)
    (timeout : Int) (t : Tick) (s : LoopState W) : LoopState W :=
  let s1 := forLoop h t.wait.batch (batchStart s)
  if t.utime_check ≥ s1.fds_timeout then
    { s1 with
        world := sched_check s1.world,
        fds_timeout := toInt32 (t.utime_update + timeout),
        trace := s1.trace ++ [Call.check_timeouts t.utime_check] }
  else s1

/-- The state at the top of `while (1)` (lines 91-105): `ret = -1` and
`fds_timeout = log_current_utime + config->timeout`. The lookup of the
thread configuration, the lock/unlock of `mutex_wait_register` and the
allocation of the `events` buffer have no effect on what follows and are
not recorded. -/
def loopStart {W : Type} (utime_start timeout : Int) (w : W) : LoopState W :=
  { ret := -1, fds_timeout := toInt32 (utime_start + timeout), world := w, trace := [] }

/-- The passes of `while (1)` for the given ticks, from state `s`. -/
def loop {W : Type} (h : mk_epoll_handlers W) (sched_check : W → W)
    (timeout : Int) : List Tick → LoopState W → LoopState W
  | [], s => s
  | t :: rest, s => loop h sched_check timeout rest (iteration h sched_check timeout t s)

/-- Function `mk_epoll_init` run for the passes described by `ticks`. -/
def mk_epoll_init {W : Type} (h : mk_epoll_handlers W) (sched_check : W → W)
    (timeout utime_start : Int) (ticks : List Tick) (w : W) : LoopState W :=
  loop h sched_check timeout ticks (loopStart utime_start timeout w)

/-! ## The interest registry -/

/-- The constants of `epoll.h` used by the registry, which is not part of
the sources at hand: they are parameters. -/
structure MkEpollConsts where
  MK_EPOLL_READ : Int
  MK_EPOLL_WRITE : Int
  MK_EPOLL_RW : Int
  MK_EPOLL_BEHAVIOR_TRIGGERED : Int
deriving DecidableEq, Repr

/-- The three mode constants are `case` labels of one `switch`, hence
pairwise different. -/
def MkEpollConsts.WellFormed (c : MkEpollConsts) : Prop :=
  c.MK_EPOLL_READ ≠ c.MK_EPOLL_WRITE ∧ c.MK_EPOLL_READ ≠ c.MK_EPOLL_RW ∧
    c.MK_EPOLL_WRITE ≠ c.MK_EPOLL_RW

instance (c : MkEpollConsts) : Decidable c.WellFormed :=
  inferInstanceAs (Decidable (c.MK_EPOLL_READ ≠ c.MK_EPOLL_WRITE ∧
    c.MK_EPOLL_READ ≠ c.MK_EPOLL_RW ∧ c.MK_EPOLL_WRITE ≠ c.MK_EPOLL_RW))

/-- The system call `epoll_ctl(efd, op, fd, event)` over a kernel state `K`:
it returns its `int` result and the new kernel state. `event` is `none`
for a `NULL` pointer. -/
abbrev EpollCtl (K : Type) := K → Int → Int → Int → Option epoll_event → Int × K

/-- The event that `mk_epoll_add` builds (lines 155-172). -/
def mk_epoll_add_event (c : MkEpollConsts) (fd init_mode behavior : Int) : epoll_event :=
  let events0 := EPOLLERR ||| EPOLLHUP ||| EPOLLRDHUP
  let events1 := if behavior = c.MK_EPOLL_BEHAVIOR_TRIGGERED then events0 ||| EPOLLET else events0
  let events2 :=
    if init_mode = c.MK_EPOLL_READ then events1 ||| EPOLLIN
    else if init_mode = c.MK_EPOLL_WRITE then events1 ||| EPOLLOUT
    else if init_mode = c.MK_EPOLL_RW then events1 ||| (EPOLLIN ||| EPOLLOUT)
    else events1
  { events := events2, fd := fd }

/-- Function `mk_epoll_add` (lines 150-180); the warning printed on failure
is not modelled. -/
def mk_epoll_add {K : Type} (epoll_ctl : EpollCtl K) (c : MkEpollConsts)
    (efd fd init_mode behavior : Int) (k : K) : Int × K :=
  epoll_ctl k efd EPOLL_CTL_ADD fd (some (mk_epoll_add_event c fd init_mode behavior))

/-- Function `mk_epoll_del` (lines 182-196). -/
def mk_epoll_del {K : Type} (epoll_ctl : EpollCtl K) (efd fd : Int) (k : K) : Int × K :=
  epoll_ctl k efd EPOLL_CTL_DEL fd none

/-- The event that `mk_epoll_change_mode` builds (lines 203-225). -/
def mk_epoll_change_mode_event (c : MkEpollConsts) (fd mode : Int) : epoll_event :=
  let events0 := EPOLLET ||| EPOLLERR ||| EPOLLHUP
  let events1 :=
    if mode = c.MK_EPOLL_READ then events0 ||| EPOLLIN
    else if mode = c.MK_EPOLL_WRITE then events0 ||| EPOLLOUT
    else if mode = c.MK_EPOLL_RW then events0 ||| (EPOLLIN ||| EPOLLOUT)
    else events0
  { events := events1, fd := fd }

/-- Function `mk_epoll_change_mode` (lines 198-232). -/
def mk_epoll_change_mode {K : Type} (epoll_ctl : EpollCtl K) (c : MkEpollConsts)
    (efd fd mode : Int) (k : K) : Int × K :=
  epoll_ctl k efd EPOLL_CTL_MOD fd (some (mk_epoll_change_mode_event c fd mode))

/-! ### A model of the kernel side of `epoll_ctl`

The interest table of one epoll instance: `EPOLL_CTL_ADD` inserts when the
descriptor is absent and fails when it is present, `EPOLL_CTL_MOD` replaces
when present and fails when absent, `EPOLL_CTL_DEL` removes when present and
fails when absent. A failing call returns `-1` and changes nothing. -/

/-- The interest table: the event registered for a descriptor, if any. -/
abbrev InterestTable := Int → Option epoll_event

/-- The table of a fresh epoll instance. -/
def InterestTable.empty : InterestTable := fun _ => none

/-- The table model of `epoll_ctl`. -/
def kernel_epoll_ctl : EpollCtl InterestTable := fun tbl _efd op fd event =>
  if op = EPOLL_CTL_ADD then
    match tbl fd, event with
    | none, some ev => (0, Function.update tbl fd (some ev))
    | _, _ => (-1, tbl)
  else if op = EPOLL_CTL_MOD then
    match tbl fd, event with
    | some _, some ev => (0, Function.update tbl fd (some ev))
    | _, _ => (-1, tbl)
  else if op = EPOLL_CTL_DEL then
    match tbl fd with
    | some _ => (0, Function.update tbl fd none)
    | none => (-1, tbl)
  else (-1, tbl)

/-- A call of the connection layer into the registry. -/
inductive RegCall where
  | add (fd init_mode behavior : Int)
  | change_mode (fd mode : Int)
  | del (fd : Int)
deriving DecidableEq, Repr

/-- The descriptor a registry call is about. -/
def RegCall.fd : RegCall → Int
  | .add fd _ _ => fd
  | .change_mode fd _ => fd
  | .del fd => fd

/-- The mode a registry call applies, for `add` and `change_mode`. -/
def RegCall.mode : RegCall → Option Int
  | .add _ m _ => some m
  | .change_mode _ m => some m
  | .del _ => none

/-- Runs one registry call against the table model; yields the value
returned to the caller and the new table. -/
def RegCall.run (c : MkEpollConsts) (efd : Int) : RegCall → InterestTable → Int × InterestTable
  | .add fd m b, tbl => mk_epoll_add kernel_epoll_ctl c efd fd m b tbl
  | .change_mode fd m, tbl => mk_epoll_change_mode kernel_epoll_ctl c efd fd m tbl
  | .del fd, tbl => mk_epoll_del kernel_epoll_ctl efd fd tbl

/-- Runs a sequence of registry calls, first call first. -/
def runCalls (c : MkEpollConsts) (efd : Int) (calls : List RegCall)
    (tbl : InterestTable) : InterestTable :=
  calls.foldl (fun t x => (x.run c efd t).2) tbl

/-! ## Vocabulary of the properties -/

/-- The event set `events` contains the class `flag`. -/
def hasFlag (events flag : Nat) : Prop := events &&& flag = flag

instance (events flag : Nat) : Decidable (hasFlag events flag) :=
  inferInstanceAs (Decidable (events &&& flag = flag))

/-- The event set carries one of the classes the loop recognises. -/
def recognised (events : Nat) : Prop :=
  hasFlag events EPOLLIN ∨ hasFlag events EPOLLOUT ∨ hasFlag events EPOLLHUP ∨
    hasFlag events EPOLLERR ∨ hasFlag events EPOLLRDHUP

instance (events : Nat) : Decidable (recognised events) :=
  inferInstanceAs (Decidable (hasFlag events EPOLLIN ∨ hasFlag events EPOLLOUT ∨
    hasFlag events EPOLLHUP ∨ hasFlag events EPOLLERR ∨ hasFlag events EPOLLRDHUP))

/-- The three handlers the loop chooses between. -/
inductive HandlerKind where
  | read
  | write
  | error
deriving DecidableEq, Repr

/-- The handler selected for an event set by the fixed priority readable,
then writable, then error/hangup/remote-half-closed. -/
def selectedHandler (events : Nat) : Option HandlerKind :=
  if hasFlag events EPOLLIN then some HandlerKind.read
  else if hasFlag events EPOLLOUT then some HandlerKind.write
  else if hasFlag events EPOLLHUP ∨ hasFlag events EPOLLERR ∨ hasFlag events EPOLLRDHUP then
    some HandlerKind.error
  else none

/-- The handler call selected for an entry, if any: which handler, on which
descriptor. -/
def selectedCall (ev : epoll_event) : Option (HandlerKind × Int) :=
  (selectedHandler ev.events).map (fun k => (k, ev.fd))

/-- For a read/write/error handler call: which handler, on which descriptor. -/
def Call.dispatched : Call → Option (HandlerKind × Int)
  | .read fd _ => some (HandlerKind.read, fd)
  | .write fd _ => some (HandlerKind.write, fd)
  | .error fd _ => some (HandlerKind.error, fd)
  | _ => none

/-- For a read/write/error handler call: the status it returned. -/
def Call.handlerStatus : Call → Option Int
  | .read _ r => some r
  | .write _ r => some r
  | .error _ r => some r
  | _ => none

/-- For a sweep: the clock value observed when it fired. -/
def Call.sweepTime : Call → Option Int
  | .check_timeouts u => some u
  | _ => none

/-- The calls made by the `for` loop over the batch `evs` started in `s`. -/
def batchCalls {W : Type} (h : mk_epoll_handlers W) (evs : List epoll_event)
    (s : LoopState W) : List Call :=
  (forLoop h evs s).trace.drop s.trace.length

/-- The state of the `for` loop over `evs`, started in `s`, when it reaches
index `i`. -/
def stateAt {W : Type} (h : mk_epoll_handlers W) (evs : List epoll_event)
    (s : LoopState W) (i : Nat) : LoopState W :=
  forLoop h (evs.take i) s

/-- The calls made while the `for` loop over `evs`, started in `s`,
processes entry `i`. -/
def entryCalls {W : Type} (h : mk_epoll_handlers W) (evs : List epoll_event)
    (s : LoopState W) (i : Nat) : List Call :=
  (stateAt h evs s (i + 1)).trace.drop (stateAt h evs s i).trace.length

/-- The calls made while the `for` loop over `evs`, started in `s`,
processes the entries of index `a ≤ j < b`. -/
def callsBetween {W : Type} (h : mk_epoll_handlers W) (evs : List epoll_event)
    (s : LoopState W) (a b : Nat) : List Call :=
  (stateAt h evs s b).trace.drop (stateAt h evs s a).trace.length

/-- The calls made by one pass of the body of `while (1)`. -/
def iterationCalls {W : Type} (h : mk_epoll_handlers W) (sched_check : W → W)
    (timeout : Int) (t : Tick) (s : LoopState W) : List Call :=
  (iteration h sched_check timeout t s).trace.drop s.trace.length

/-- The value of the status variable as the claim describes it: the status
of the most recent handler call among `calls`, and `-1` when there is none. -/
def statusLeftBy (calls : List Call) : Int :=
  ((calls.filterMap Call.handlerStatus).getLast?).getD (-1)

/-- The calls made by a run of the loop from state `s`. -/
def loopCalls {W : Type} (h : mk_epoll_handlers W) (sched_check : W → W)
    (timeout : Int) (ticks : List Tick) (s : LoopState W) : List Call :=
  (loop h sched_check timeout ticks s).trace.drop s.trace.length

/-- The world after the call is made in world `w`: the handler, the close
handler or the sweep named by the call is applied to the descriptor it
names; `epoll_wait` leaves the handlers' world alone. -/
def Call.effect {W : Type} (h : mk_epoll_handlers W) (sched_check : W → W) : Call → W → W
  | .epoll_wait, w => w
  | .read fd _, w => (h.read fd w).2
  | .write fd _, w => (h.write fd w).2
  | .error fd _, w => (h.error fd w).2
  | .close fd, w => h.close fd w
  | .check_timeouts _, w => sched_check w

/-- The status recorded with a handler call is the one the handler returns
when it is called in world `w`. -/
def Call.returned {W : Type} (h : mk_epoll_handlers W) : Call → W → Prop
  | .read fd r, w => (h.read fd w).1 = r
  | .write fd r, w => (h.write fd w).1 = r
  | .error fd r, w => (h.error fd w).1 = r
  | _, _ => True

/-- Making the calls of the list, in order and nothing else, takes the world
from `w` to `w'`, and every handler returns the status recorded for it. -/
def Performs {W : Type} (h : mk_epoll_handlers W) (sched_check : W → W) :
    List Call → W → W → Prop
  | [], w, w' => w' = w
  | c :: cs, w, w' => c.returned h w ∧ Performs h sched_check cs (c.effect h sched_check w) w'

/-- The value is representable in a C `int`. -/
def InInt32 (x : Int) : Prop := -2147483648 ≤ x ∧ x < 2147483648

instance (x : Int) : Decidable (InInt32 x) :=
  inferInstanceAs (Decidable (-2147483648 ≤ x ∧ x < 2147483648))

/-- The successive reads of `log_current_utime` during a run: the one at
loop start, then for each pass the one at line 143 and the one at line 145. -/
def clockReads (utime_start : Int) (ticks : List Tick) : List Int :=
  utime_start :: ticks.flatMap (fun t => [t.utime_check, t.utime_update])

/-- The mode's readable/writable part of an event mask. -/
def modeBits (c : MkEpollConsts) (mode : Int) : Nat :=
  (if mode = c.MK_EPOLL_READ ∨ mode = c.MK_EPOLL_RW then EPOLLIN else 0) |||
    (if mode = c.MK_EPOLL_WRITE ∨ mode = c.MK_EPOLL_RW then EPOLLOUT else 0)

/-- The mode is one of read, write, read-write. -/
def IsMode (c : MkEpollConsts) (mode : Int) : Prop :=
  mode = c.MK_EPOLL_READ ∨ mode = c.MK_EPOLL_WRITE ∨ mode = c.MK_EPOLL_RW

instance (c : MkEpollConsts) (mode : Int) : Decidable (IsMode c mode) :=
  inferInstanceAs (Decidable (mode = c.MK_EPOLL_READ ∨ mode = c.MK_EPOLL_WRITE ∨
    mode = c.MK_EPOLL_RW))

/-- No call of the sequence registers a descriptor that is in the table at
that moment. -/
def NoDoubleRegistration (c : MkEpollConsts) (efd : Int) :
    List RegCall → InterestTable → Prop
  | [], _ => True
  | x :: rest, tbl =>
    (match x with
      | .add fd _ _ => tbl fd = none
      | _ => True) ∧ NoDoubleRegistration c efd rest ((x.run c efd tbl).2)

/-- The last `add` on `fd` in `calls` is not followed by a `del` on `fd`. -/
def LastAddNotFollowedByDel (calls : List RegCall) (fd : Int) : Prop :=
  ∃ pre post m b, calls = pre ++ RegCall.add fd m b :: post ∧
    (∀ x ∈ post, ∀ m1 b1, x ≠ RegCall.add fd m1 b1) ∧ (∀ x ∈ post, x ≠ RegCall.del fd)

/-- The mode most recently applied to `fd` by an `add` or a `change_mode`
of `calls`: the mode of the last such call on `fd`, if there is one. -/
def mostRecentMode (calls : List RegCall) (fd : Int) : Option Int :=
  ((calls.filter (fun x => x.fd = fd)).filterMap RegCall.mode).getLast?

/-! ## Concrete handlers and inputs used in the examples -/

/-- Handlers on a trivial world whose read, write and error handlers all
return `status`. -/
def constHandlers (status : Int) : mk_epoll_handlers Unit :=
  { read := fun _ w => (status, w),
    write := fun _ w => (status, w),
    error := fun _ w => (status, w),
    close := fun _ w => w,
    timeout := fun _ w => w }

/-- What a handler of `recordingHandlers` writes down when it is applied. -/
inductive Applied where
  | read (fd : Int)
  | write (fd : Int)
  | error (fd : Int)
  | close (fd : Int)
  | sweep
deriving DecidableEq, Repr

/-- Handlers whose world is the log of the handlers applied so far: each
handler appends its own name and descriptor; the read, write and error
handlers return `status` of their kind and descriptor. -/
def recordingHandlers (status : HandlerKind → Int → Int) : mk_epoll_handlers (List Applied) :=
  { read := fun fd w => (status HandlerKind.read fd, w ++ [Applied.read fd]),
    write := fun fd w => (status HandlerKind.write fd, w ++ [Applied.write fd]),
    error := fun fd w => (status HandlerKind.error fd, w ++ [Applied.error fd]),
    close := fun fd w => w ++ [Applied.close fd],
    timeout := fun _ w => w }

/-- The sweep that goes with `recordingHandlers`. -/
def recordingSweep (w : List Applied) : List Applied := w ++ [Applied.sweep]

/-- Statuses for `recordingHandlers`: the three handlers return 1, 2, 3. -/
def statusByKind (k : HandlerKind) (_fd : Int) : Int :=
  match k with
  | HandlerKind.read => 1
  | HandlerKind.write => 2
  | HandlerKind.error => 3

/-- Statuses for `recordingHandlers`: every handler succeeds. -/
def alwaysOk (_k : HandlerKind) (_fd : Int) : Int := 0

/-- Statuses for `recordingHandlers`: every handler fails on descriptor 4
and succeeds elsewhere. -/
def failsOnFour (_k : HandlerKind) (fd : Int) : Int := if fd = 4 then -1 else 0

/-- A tick whose wait call returned the entries `evs` and whose clock reads
are both `utime`. -/
def readyTick (evs : List epoll_event) (utime : Int) : Tick :=
  { wait := { num_fds := evs.length, errno := 0, events := evs },
    utime_check := utime, utime_update := utime }

/-- A tick whose wait call failed with `errno`, leaving `stale` in the
buffer, and whose clock reads are both `utime`. -/
def failedTick (errno : Int) (stale : List epoll_event) (utime : Int) : Tick :=
  { wait := { num_fds := -1, errno := errno, events := stale },
    utime_check := utime, utime_update := utime }

/-- A batch of three entries on three descriptors: readable, writable,
readable. -/
def exampleBatch : List epoll_event :=
  [⟨EPOLLIN, 3⟩, ⟨EPOLLOUT, 4⟩, ⟨EPOLLIN, 5⟩]

/-- A batch whose second entry carries no class the loop recognises. -/
def exampleBatchPri : List epoll_event :=
  [⟨EPOLLIN, 3⟩, ⟨EPOLLPRI, 4⟩]

/-- Four passes with no ready descriptor, at clock values 5, 10, 12, 25. -/
def exampleTicks : List Tick :=
  [readyTick [] 5, readyTick [] 10, readyTick [] 12, readyTick [] 25]

/-- A sequence of registry calls on descriptors 4 and 5 (modes: 0 read,
1 write, 2 read-write; behavior 3 is edge-triggered): register 4 for
reading, register 5 for writing, switch 4 to writing, unregister 5, try to
switch 5 to read-write. -/
def exampleCalls : List RegCall :=
  [RegCall.add 4 0 3, RegCall.add 5 1 2, RegCall.change_mode 4 1, RegCall.del 5,
    RegCall.change_mode 5 2]

/-- Values for the constants of `epoll.h`. -/
def exampleConsts : MkEpollConsts :=
  { MK_EPOLL_READ := 0, MK_EPOLL_WRITE := 1, MK_EPOLL_RW := 2,
    MK_EPOLL_BEHAVIOR_TRIGGERED := 3 }

/-! ## Auxiliary facts -/

theorem or_eq_zero_iff (a b : Nat) : a ||| b = 0 ↔ a = 0 ∧ b = 0 := by
  constructor
  · intro hab
    have key : ∀ i, (a.testBit i || b.testBit i) = false := by
      intro i
      rw [← Nat.testBit_or, hab, Nat.zero_testBit]
    constructor
    · apply Nat.eq_of_testBit_eq
      intro i
      have := key i
      rw [Nat.zero_testBit]
      cases hA : a.testBit i <;> simp_all
    · apply Nat.eq_of_testBit_eq
      intro i
      have := key i
      rw [Nat.zero_testBit]
      cases hB : b.testBit i <;> simp_all
  · rintro ⟨rfl, rfl⟩
    rfl

theorem and_pow_ne_zero_iff (n i : Nat) : n &&& 2 ^ i ≠ 0 ↔ hasFlag n (2 ^ i) := by
  unfold hasFlag
  rw [Nat.and_two_pow]
  have hpos : 0 < 2 ^ i := Nat.pow_pos (by decide)
  cases n.testBit i
  · simp only [Bool.toNat_false, Nat.zero_mul, ne_eq, not_true_eq_false, false_iff]
    omega
  · simp only [Bool.toNat_true, Nat.one_mul, ne_eq, iff_true]
    omega

theorem test_in (n : Nat) : n &&& EPOLLIN ≠ 0 ↔ hasFlag n EPOLLIN :=
  and_pow_ne_zero_iff n 0

theorem test_out (n : Nat) : n &&& EPOLLOUT ≠ 0 ↔ hasFlag n EPOLLOUT :=
  and_pow_ne_zero_iff n 2

theorem test_err (n : Nat) :
    n &&& (EPOLLHUP ||| EPOLLERR ||| EPOLLRDHUP) ≠ 0 ↔
      hasFlag n EPOLLHUP ∨ hasFlag n EPOLLERR ∨ hasFlag n EPOLLRDHUP := by
  have h1 : n &&& EPOLLHUP ≠ 0 ↔ hasFlag n EPOLLHUP := and_pow_ne_zero_iff n 4
  have h2 : n &&& EPOLLERR ≠ 0 ↔ hasFlag n EPOLLERR := and_pow_ne_zero_iff n 3
  have h3 : n &&& EPOLLRDHUP ≠ 0 ↔ hasFlag n EPOLLRDHUP := and_pow_ne_zero_iff n 13
  rw [← h1, ← h2, ← h3, Nat.and_or_distrib_left, Nat.and_or_distrib_left, ne_eq,
    or_eq_zero_iff, or_eq_zero_iff]
  tauto

/-- What one pass of the loop body does, by the handler selected for the
entry: the handler calls `hc` it makes, the status `r` it leaves in `ret`,
and the close call that follows when `r` is negative. -/
theorem dispatch_cases {W : Type} (h : mk_epoll_handlers W) (ev : epoll_event)
    (s : LoopState W) :
    ∃ (hc : List Call) (r : Int),
      (dispatch h ev s).trace = s.trace ++ (hc ++ if r < 0 then [Call.close ev.fd] else []) ∧
      (dispatch h ev s).ret = r ∧
      (dispatch h ev s).fds_timeout = s.fds_timeout ∧
      ((selectedHandler ev.events = some HandlerKind.read ∧ hc = [Call.read ev.fd r]) ∨
       (selectedHandler ev.events = some HandlerKind.write ∧ hc = [Call.write ev.fd r]) ∨
       (selectedHandler ev.events = some HandlerKind.error ∧ hc = [Call.error ev.fd r]) ∨
       (selectedHandler ev.events = none ∧ hc = [] ∧ r = s.ret)) := by
  unfold dispatch selectedHandler
  simp only [test_in, test_out, test_err]
  by_cases hin : hasFlag ev.events EPOLLIN
  · refine ⟨[Call.read ev.fd (h.read ev.fd s.world).1], (h.read ev.fd s.world).1, ?_⟩
    simp only [hin, if_true]
    by_cases hr : (h.read ev.fd s.world).1 < 0 <;> simp [hr]
  · by_cases hout : hasFlag ev.events EPOLLOUT
    · refine ⟨[Call.write ev.fd (h.write ev.fd s.world).1], (h.write ev.fd s.world).1, ?_⟩
      simp only [hin, hout, if_true, if_false]
      by_cases hr : (h.write ev.fd s.world).1 < 0 <;> simp [hr]
    · by_cases herr : hasFlag ev.events EPOLLHUP ∨ hasFlag ev.events EPOLLERR ∨
          hasFlag ev.events EPOLLRDHUP
      · refine ⟨[Call.error ev.fd (h.error ev.fd s.world).1], (h.error ev.fd s.world).1, ?_⟩
        simp only [hin, hout, herr, if_true, if_false]
        by_cases hr : (h.error ev.fd s.world).1 < 0 <;> simp [hr]
      · refine ⟨[], s.ret, ?_⟩
        simp only [hin, hout, herr, if_false]
        by_cases hr : s.ret < 0 <;> simp [hr]

/-! ### The `for` loop, entry by entry -/

theorem forLoop_append {W : Type} (h : mk_epoll_handlers W) (a b : List epoll_event)
    (s : LoopState W) : forLoop h (a ++ b) s = forLoop h b (forLoop h a s) := by
  induction a generalizing s with
  | nil => rfl
  | cons ev rest ih => exact ih (dispatch h ev s)

theorem stateAt_zero {W : Type} (h : mk_epoll_handlers W) (evs : List epoll_event)
    (s : LoopState W) : stateAt h evs s 0 = s := by
  simp [stateAt, forLoop]

theorem stateAt_length {W : Type} (h : mk_epoll_handlers W) (evs : List epoll_event)
    (s : LoopState W) : stateAt h evs s evs.length = forLoop h evs s := by
  simp [stateAt]

theorem stateAt_succ {W : Type} (h : mk_epoll_handlers W) (evs : List epoll_event)
    (s : LoopState W) (i : Nat) (hi : i < evs.length) :
    stateAt h evs s (i + 1) = dispatch h evs[i] (stateAt h evs s i) := by
  unfold stateAt
  rw [List.take_succ, List.getElem?_eq_getElem hi, forLoop_append]
  rfl

/-- The summary of `dispatch_cases` for entry `i` of a batch. -/
theorem entry_cases {W : Type} (h : mk_epoll_handlers W) (evs : List epoll_event)
    (s : LoopState W) (i : Nat) (hi : i < evs.length) :
    ∃ (hc : List Call) (r : Int),
      entryCalls h evs s i = hc ++ (if r < 0 then [Call.close evs[i].fd] else []) ∧
      (stateAt h evs s (i + 1)).trace = (stateAt h evs s i).trace ++ entryCalls h evs s i ∧
      (stateAt h evs s (i + 1)).ret = r ∧
      ((selectedHandler evs[i].events = some HandlerKind.read ∧ hc = [Call.read evs[i].fd r]) ∨
       (selectedHandler evs[i].events = some HandlerKind.write ∧
          hc = [Call.write evs[i].fd r]) ∨
       (selectedHandler evs[i].events = some HandlerKind.error ∧
          hc = [Call.error evs[i].fd r]) ∨
       (selectedHandler evs[i].events = none ∧ hc = [] ∧ r = (stateAt h evs s i).ret)) := by
  obtain ⟨hc, r, htr, hret, -, hsel⟩ := dispatch_cases h evs[i] (stateAt h evs s i)
  have hE : entryCalls h evs s i = hc ++ (if r < 0 then [Call.close evs[i].fd] else []) := by
    unfold entryCalls
    rw [stateAt_succ h evs s i hi, htr, List.drop_left]
  refine ⟨hc, r, hE, ?_, ?_, hsel⟩
  · rw [hE, stateAt_succ h evs s i hi, htr]
  · rw [stateAt_succ h evs s i hi, hret]

theorem stateAt_fds_timeout {W : Type} (h : mk_epoll_handlers W) (evs : List epoll_event)
    (s : LoopState W) (i : Nat) (hi : i ≤ evs.length) :
    (stateAt h evs s i).fds_timeout = s.fds_timeout := by
  induction i with
  | zero => rw [stateAt_zero]
  | succ k ih =>
    rw [stateAt_succ h evs s k hi]
    obtain ⟨_, _, _, _, hfd, _⟩ := dispatch_cases h evs[k] (stateAt h evs s k)
    rw [hfd, ih (Nat.le_of_succ_le hi)]

theorem forLoop_fds_timeout {W : Type} (h : mk_epoll_handlers W) (evs : List epoll_event)
    (s : LoopState W) : (forLoop h evs s).fds_timeout = s.fds_timeout := by
  rw [← stateAt_length, stateAt_fds_timeout h evs s evs.length (Nat.le_refl _)]

theorem stateAt_trace {W : Type} (h : mk_epoll_handlers W) (evs : List epoll_event)
    (s : LoopState W) (a b : Nat) (hab : a ≤ b) (hb : b ≤ evs.length) :
    (stateAt h evs s b).trace = (stateAt h evs s a).trace ++ callsBetween h evs s a b := by
  induction b with
  | zero =>
    obtain rfl : a = 0 := Nat.le_zero.mp hab
    simp [callsBetween]
  | succ k ih =>
    rcases Nat.lt_or_ge a (k + 1) with hlt | hge
    · have hak : a ≤ k := Nat.lt_succ_iff.mp hlt
      have hk := ih hak (Nat.le_of_succ_le hb)
      obtain ⟨_, _, _, htr, _, _⟩ := entry_cases h evs s k hb
      unfold callsBetween
      rw [htr, hk, List.append_assoc, List.drop_left]
    · obtain rfl : a = k + 1 := Nat.le_antisymm hab hge
      simp [callsBetween]

theorem callsBetween_split {W : Type} (h : mk_epoll_handlers W) (evs : List epoll_event)
    (s : LoopState W) (a b c : Nat) (hab : a ≤ b) (hbc : b ≤ c) (hc : c ≤ evs.length) :
    callsBetween h evs s a c = callsBetween h evs s a b ++ callsBetween h evs s b c := by
  have h1 := stateAt_trace h evs s a c (Nat.le_trans hab hbc) hc
  have h2 := stateAt_trace h evs s a b hab (Nat.le_trans hbc hc)
  have h3 := stateAt_trace h evs s b c hbc hc
  rw [h3, h2, List.append_assoc] at h1
  exact (List.append_cancel_left h1).symm

theorem callsBetween_self {W : Type} (h : mk_epoll_handlers W) (evs : List epoll_event)
    (s : LoopState W) (a : Nat) : callsBetween h evs s a a = [] := by
  simp [callsBetween]

theorem callsBetween_entry {W : Type} (h : mk_epoll_handlers W) (evs : List epoll_event)
    (s : LoopState W) (i : Nat) : callsBetween h evs s i (i + 1) = entryCalls h evs s i := rfl

theorem callsBetween_all {W : Type} (h : mk_epoll_handlers W) (evs : List epoll_event)
    (s : LoopState W) : callsBetween h evs s 0 evs.length = batchCalls h evs s := by
  unfold callsBetween batchCalls
  rw [stateAt_zero, stateAt_length]

theorem forLoop_trace {W : Type} (h : mk_epoll_handlers W) (evs : List epoll_event)
    (s : LoopState W) : (forLoop h evs s).trace = s.trace ++ batchCalls h evs s := by
  have := stateAt_trace h evs s 0 evs.length (Nat.zero_le _) (Nat.le_refl _)
  rwa [stateAt_zero, stateAt_length, callsBetween_all] at this

theorem callsBetween_succ {W : Type} (h : mk_epoll_handlers W) (evs : List epoll_event)
    (s : LoopState W) (a b : Nat) (hab : a ≤ b) (hb : b < evs.length) :
    callsBetween h evs s a (b + 1) = callsBetween h evs s a b ++ entryCalls h evs s b := by
  rw [callsBetween_split h evs s a b (b + 1) hab (Nat.le_succ b) hb, callsBetween_entry]

theorem callsBetween_eq_flatMap {W : Type} (h : mk_epoll_handlers W) (evs : List epoll_event)
    (s : LoopState W) (b : Nat) (hb : b ≤ evs.length) :
    callsBetween h evs s 0 b = (List.range b).flatMap (entryCalls h evs s) := by
  induction b with
  | zero => simp [callsBetween_self]
  | succ k ih =>
    rw [callsBetween_succ h evs s 0 k (Nat.zero_le _) hb, ih (Nat.le_of_succ_le hb),
      List.range_succ, List.flatMap_append]
    simp

/-- Every call made between two indices is made while processing one of
the entries in between. -/
theorem mem_callsBetween {W : Type} (h : mk_epoll_handlers W) (evs : List epoll_event)
    (s : LoopState W) (a b : Nat) (hab : a ≤ b) (hb : b ≤ evs.length) (x : Call)
    (hx : x ∈ callsBetween h evs s a b) :
    ∃ j, a ≤ j ∧ j < b ∧ x ∈ entryCalls h evs s j := by
  induction b with
  | zero =>
    obtain rfl : a = 0 := Nat.le_zero.mp hab
    rw [callsBetween_self] at hx
    cases hx
  | succ k ih =>
    rcases Nat.lt_or_ge a (k + 1) with hlt | hge
    · have hak : a ≤ k := Nat.lt_succ_iff.mp hlt
      rw [callsBetween_succ h evs s a k hak hb, List.mem_append] at hx
      rcases hx with hx | hx
      · obtain ⟨j, h1, h2, h3⟩ := ih hak (Nat.le_of_succ_le hb) hx
        exact ⟨j, h1, Nat.lt_succ_of_lt h2, h3⟩
      · exact ⟨k, hak, Nat.lt_succ_self k, hx⟩
    · obtain rfl : a = k + 1 := Nat.le_antisymm hab hge
      rw [callsBetween_self] at hx
      cases hx

theorem selectedHandler_eq_none_iff (events : Nat) :
    selectedHandler events = none ↔ ¬ recognised events := by
  unfold selectedHandler recognised
  split_ifs with h1 h2 h3 <;> simp_all

theorem filterMap_dispatched_closePart (r fd : Int) :
    (if r < 0 then [Call.close fd] else []).filterMap Call.dispatched = [] := by
  split_ifs <;> rfl

theorem filterMap_handlerStatus_closePart (r fd : Int) :
    (if r < 0 then [Call.close fd] else []).filterMap Call.handlerStatus = [] := by
  split_ifs <;> rfl

/-- The handler calls made for entry `i` are the call selected for it. -/
theorem entryCalls_dispatched {W : Type} (h : mk_epoll_handlers W) (evs : List epoll_event)
    (s : LoopState W) (i : Nat) (hi : i < evs.length) :
    (entryCalls h evs s i).filterMap Call.dispatched = (selectedCall evs[i]).toList := by
  obtain ⟨hc, r, hE, -, -, hsel⟩ := entry_cases h evs s i hi
  rw [hE, List.filterMap_append, filterMap_dispatched_closePart, List.append_nil]
  unfold selectedCall
  rcases hsel with ⟨h1, rfl⟩ | ⟨h1, rfl⟩ | ⟨h1, rfl⟩ | ⟨h1, rfl, -⟩ <;> rw [h1] <;> rfl

/-- Every call made for entry `i` is about that entry's descriptor: it is
the close call on it or a handler call on it. -/
theorem entryCalls_target {W : Type} (h : mk_epoll_handlers W) (evs : List epoll_event)
    (s : LoopState W) (i : Nat) (hi : i < evs.length) (x : Call)
    (hx : x ∈ entryCalls h evs s i) :
    x = Call.close evs[i].fd ∨ ∃ k r, x.dispatched = some (k, evs[i].fd) ∧
      x.handlerStatus = some r := by
  obtain ⟨hc, r, hE, -, -, hsel⟩ := entry_cases h evs s i hi
  rw [hE, List.mem_append] at hx
  rcases hx with hx | hx
  · right
    rcases hsel with ⟨-, rfl⟩ | ⟨-, rfl⟩ | ⟨-, rfl⟩ | ⟨-, rfl, -⟩
    · rw [List.mem_singleton] at hx; subst hx; exact ⟨_, r, rfl, rfl⟩
    · rw [List.mem_singleton] at hx; subst hx; exact ⟨_, r, rfl, rfl⟩
    · rw [List.mem_singleton] at hx; subst hx; exact ⟨_, r, rfl, rfl⟩
    · cases hx
  · left
    split_ifs at hx
    · exact List.mem_singleton.mp hx
    · cases hx

/-- The calls of an entry whose handler call `c` returned the status `r`. -/
theorem entryCalls_of_handler {W : Type} (h : mk_epoll_handlers W) (evs : List epoll_event)
    (s : LoopState W) (i : Nat) (hi : i < evs.length) (c : Call) (r : Int)
    (hc : c ∈ entryCalls h evs s i) (hr : c.handlerStatus = some r) :
    entryCalls h evs s i = [c] ++ (if r < 0 then [Call.close evs[i].fd] else []) ∧
      (stateAt h evs s (i + 1)).ret = r ∧ selectedHandler evs[i].events ≠ none := by
  obtain ⟨hcs, r0, hE, -, hret, hsel⟩ := entry_cases h evs s i hi
  have hmem : c ∈ hcs := by
    rw [hE, List.mem_append] at hc
    rcases hc with hc | hc
    · exact hc
    · split_ifs at hc
      · rw [List.mem_singleton.mp hc] at hr; cases hr
      · cases hc
  rcases hsel with ⟨h1, rfl⟩ | ⟨h1, rfl⟩ | ⟨h1, rfl⟩ | ⟨-, rfl, -⟩
  · rw [List.mem_singleton] at hmem; subst hmem
    obtain rfl : r0 = r := by simpa [Call.handlerStatus] using hr
    exact ⟨hE, hret, by rw [h1]; simp⟩
  · rw [List.mem_singleton] at hmem; subst hmem
    obtain rfl : r0 = r := by simpa [Call.handlerStatus] using hr
    exact ⟨hE, hret, by rw [h1]; simp⟩
  · rw [List.mem_singleton] at hmem; subst hmem
    obtain rfl : r0 = r := by simpa [Call.handlerStatus] using hr
    exact ⟨hE, hret, by rw [h1]; simp⟩
  · cases hmem

/-- The calls of an entry that carries no recognised class: the status is
the one left by the earlier entries and decides the close call alone. -/
theorem entryCalls_of_unrecognised {W : Type} (h : mk_epoll_handlers W)
    (evs : List epoll_event) (s : LoopState W) (i : Nat) (hi : i < evs.length)
    (hn : ¬ recognised evs[i].events) :
    entryCalls h evs s i =
        (if (stateAt h evs s i).ret < 0 then [Call.close evs[i].fd] else []) ∧
      (stateAt h evs s (i + 1)).ret = (stateAt h evs s i).ret := by
  obtain ⟨hcs, r0, hE, -, hret, hsel⟩ := entry_cases h evs s i hi
  have hnone := (selectedHandler_eq_none_iff evs[i].events).mpr hn
  rcases hsel with ⟨h1, -⟩ | ⟨h1, -⟩ | ⟨h1, -⟩ | ⟨-, rfl, rfl⟩
  · rw [hnone] at h1; cases h1
  · rw [hnone] at h1; cases h1
  · rw [hnone] at h1; cases h1
  · exact ⟨by rw [hE, List.nil_append], hret⟩

theorem entryCalls_subset_batchCalls {W : Type} (h : mk_epoll_handlers W)
    (evs : List epoll_event) (s : LoopState W) (i : Nat) (hi : i < evs.length) (x : Call)
    (hx : x ∈ entryCalls h evs s i) : x ∈ batchCalls h evs s := by
  rw [← callsBetween_all, callsBetween_split h evs s 0 (i + 1) evs.length (Nat.zero_le _) hi
    (Nat.le_refl _), callsBetween_succ h evs s 0 i (Nat.zero_le _) hi]
  exact List.mem_append_left _ (List.mem_append_right _ hx)

/-- Started with `ret = -1`, the status variable after `k` entries is the
status of the most recent handler call, or `-1`. -/
theorem stateAt_ret {W : Type} (h : mk_epoll_handlers W) (evs : List epoll_event)
    (s : LoopState W) (hs : s.ret = -1) (k : Nat) (hk : k ≤ evs.length) :
    (stateAt h evs s k).ret = statusLeftBy (callsBetween h evs s 0 k) := by
  induction k with
  | zero => rw [stateAt_zero, callsBetween_self, hs]; rfl
  | succ j ih =>
    have ihj := ih (Nat.le_of_succ_le hk)
    obtain ⟨hcs, r, hE, -, hret, hsel⟩ := entry_cases h evs s j hk
    rw [hret, callsBetween_succ h evs s 0 j (Nat.zero_le _) hk, hE]
    unfold statusLeftBy
    rw [List.filterMap_append, List.filterMap_append, filterMap_handlerStatus_closePart,
      List.append_nil]
    rcases hsel with ⟨-, rfl⟩ | ⟨-, rfl⟩ | ⟨-, rfl⟩ | ⟨-, rfl, rfl⟩
    · simp [Call.handlerStatus]
    · simp [Call.handlerStatus]
    · simp [Call.handlerStatus]
    · rw [List.filterMap_nil, List.append_nil]
      exact ihj

/-! ### The calls recorded are the calls made -/

theorem performs_append {W : Type} (h : mk_epoll_handlers W) (sched_check : W → W)
    (a b : List Call) (w w1 w2 : W) (ha : Performs h sched_check a w w1)
    (hb : Performs h sched_check b w1 w2) : Performs h sched_check (a ++ b) w w2 := by
  induction a generalizing w with
  | nil =>
    have hw : w1 = w := ha
    subst hw
    exact hb
  | cons c cs ih => exact ⟨ha.1, ih _ ha.2⟩

/-- One pass of the loop body applies the handlers it records, and no
other: the calls it appends to the trace, made in order, return the
recorded statuses and lead from the world before to the world after. -/
theorem dispatch_performs {W : Type} (h : mk_epoll_handlers W) (sched_check : W → W)
    (ev : epoll_event) (s : LoopState W) :
    Performs h sched_check ((dispatch h ev s).trace.drop s.trace.length) s.world
      (dispatch h ev s).world := by
  unfold dispatch
  by_cases h1 : ev.events &&& EPOLLIN ≠ 0
  · by_cases hr : (h.read ev.fd s.world).1 < 0
    · simp [h1, hr, Performs, Call.returned, Call.effect]
    · simp [h1, hr, Performs, Call.returned, Call.effect]
  · by_cases h2 : ev.events &&& EPOLLOUT ≠ 0
    · by_cases hr : (h.write ev.fd s.world).1 < 0
      · simp [h1, h2, hr, Performs, Call.returned, Call.effect]
      · simp [h1, h2, hr, Performs, Call.returned, Call.effect]
    · by_cases h3 : ev.events &&& (EPOLLHUP ||| EPOLLERR ||| EPOLLRDHUP) ≠ 0
      · by_cases hr : (h.error ev.fd s.world).1 < 0
        · simp [h1, h2, h3, hr, Performs, Call.returned, Call.effect]
        · simp [h1, h2, h3, hr, Performs, Call.returned, Call.effect]
      · by_cases hr : s.ret < 0
        · simp [h1, h2, h3, hr, Performs, Call.returned, Call.effect]
        · simp [h1, h2, h3, hr, Performs, Call.returned, Call.effect]

/-- The status and the world that the loop body leaves before the test
`ret < 0`, by the handler it applies. -/
theorem dispatch_status {W : Type} (h : mk_epoll_handlers W) (ev : epoll_event)
    (s : LoopState W) :
    (dispatch h ev s).ret =
      if hasFlag ev.events EPOLLIN then (h.read ev.fd s.world).1
      else if hasFlag ev.events EPOLLOUT then (h.write ev.fd s.world).1
      else if hasFlag ev.events EPOLLHUP ∨ hasFlag ev.events EPOLLERR ∨
          hasFlag ev.events EPOLLRDHUP then (h.error ev.fd s.world).1
      else s.ret := by
  unfold dispatch
  simp only [test_in, test_out, test_err]
  by_cases h1 : hasFlag ev.events EPOLLIN
  · simp only [h1, if_true]
    split_ifs <;> rfl
  · by_cases h2 : hasFlag ev.events EPOLLOUT
    · simp only [h1, h2, if_true, if_false]
      split_ifs <;> rfl
    · by_cases h3 : hasFlag ev.events EPOLLHUP ∨ hasFlag ev.events EPOLLERR ∨
          hasFlag ev.events EPOLLRDHUP
      · simp only [h1, h2, h3, if_true, if_false]
        split_ifs <;> rfl
      · simp only [h1, h2, h3, if_false]
        split_ifs <;> rfl

theorem entry_performs {W : Type} (h : mk_epoll_handlers W) (sched_check : W → W)
    (evs : List epoll_event) (s : LoopState W) (i : Nat) (hi : i < evs.length) :
    Performs h sched_check (entryCalls h evs s i) (stateAt h evs s i).world
      (stateAt h evs s (i + 1)).world := by
  unfold entryCalls
  rw [stateAt_succ h evs s i hi]
  exact dispatch_performs h sched_check evs[i] (stateAt h evs s i)

theorem callsBetween_performs {W : Type} (h : mk_epoll_handlers W) (sched_check : W → W)
    (evs : List epoll_event) (s : LoopState W) (a b : Nat) (hab : a ≤ b)
    (hb : b ≤ evs.length) :
    Performs h sched_check (callsBetween h evs s a b) (stateAt h evs s a).world
      (stateAt h evs s b).world := by
  induction b with
  | zero =>
    obtain rfl : a = 0 := Nat.le_zero.mp hab
    rw [callsBetween_self]
    exact rfl
  | succ k ih =>
    rcases Nat.lt_or_ge a (k + 1) with hlt | hge
    · have hak : a ≤ k := Nat.lt_succ_iff.mp hlt
      rw [callsBetween_succ h evs s a k hak hb]
      exact performs_append h sched_check _ _ _ _ _ (ih hak (Nat.le_of_succ_le hb))
        (entry_performs h sched_check evs s k hb)
    · obtain rfl : a = k + 1 := Nat.le_antisymm hab hge
      rw [callsBetween_self]
      exact rfl

theorem batch_performs {W : Type} (h : mk_epoll_handlers W) (sched_check : W → W)
    (evs : List epoll_event) (s : LoopState W) :
    Performs h sched_check (batchCalls h evs s) s.world (forLoop h evs s).world := by
  have := callsBetween_performs h sched_check evs s 0 evs.length (Nat.zero_le _)
    (Nat.le_refl _)
  rwa [callsBetween_all, stateAt_zero, stateAt_length] at this

/-! ## The dispatch of one entry -/

/-- C1: for every entry `i` of a batch, whatever the handlers do, the
read/write/error handler calls made while the loop processes that entry are
at most one, on the entry's descriptor, chosen by fixed priority: the read
handler when the event set contains `EPOLLIN` (also when `EPOLLOUT` or the
error classes are set as well, so no write call comes before it), else the
write handler when it contains `EPOLLOUT`, else the error handler when it
contains one of `EPOLLHUP`, `EPOLLERR`, `EPOLLRDHUP`, else none. The calls
recorded for the entry are the calls the loop makes: applied in order to the
world in which the entry is reached they return the recorded statuses and
give the world after the entry; and the status variable after the entry is
what the chosen handler returned in that world (unchanged when none is
chosen). -/
theorem dispatch_one_handler_by_priority {W : Type} (h : mk_epoll_handlers W)
    (sched_check : W → W) (evs : List epoll_event) (s : LoopState W) (i : Nat)
    (hi : i < evs.length) :
    ((entryCalls h evs s i).filterMap Call.dispatched =
      if hasFlag evs[i].events EPOLLIN then [(HandlerKind.read, evs[i].fd)]
      else if hasFlag evs[i].events EPOLLOUT then [(HandlerKind.write, evs[i].fd)]
      else if hasFlag evs[i].events EPOLLHUP ∨ hasFlag evs[i].events EPOLLERR ∨
          hasFlag evs[i].events EPOLLRDHUP then [(HandlerKind.error, evs[i].fd)]
      else []) ∧
    Performs h sched_check (entryCalls h evs s i) (stateAt h evs s i).world
      (stateAt h evs s (i + 1)).world ∧
    (stateAt h evs s (i + 1)).ret =
      if hasFlag evs[i].events EPOLLIN then (h.read evs[i].fd (stateAt h evs s i).world).1
      else if hasFlag evs[i].events EPOLLOUT then
        (h.write evs[i].fd (stateAt h evs s i).world).1
      else if hasFlag evs[i].events EPOLLHUP ∨ hasFlag evs[i].events EPOLLERR ∨
          hasFlag evs[i].events EPOLLRDHUP then
        (h.error evs[i].fd (stateAt h evs s i).world).1
      else (stateAt h evs s i).ret := by
  refine ⟨?_, entry_performs h sched_check evs s i hi, ?_⟩
  · rw [entryCalls_dispatched h evs s i hi]
    unfold selectedCall selectedHandler
    split_ifs <;> rfl
  · rw [stateAt_succ h evs s i hi]
    exact dispatch_status h evs[i] (stateAt h evs s i)

/-- An entry that is readable and writable at once, with handlers that log
their own application and return 1, 2, 3 by kind: the read handler alone is
applied. -/
theorem dispatch_one_handler_by_priority_witness :
    0 < [epoll_event.mk (EPOLLIN ||| EPOLLOUT) 7].length ∧
      (entryCalls (recordingHandlers statusByKind) [epoll_event.mk (EPOLLIN ||| EPOLLOUT) 7]
          (loopStart 0 10 []) 0).filterMap Call.dispatched = [(HandlerKind.read, 7)] ∧
      (stateAt (recordingHandlers statusByKind) [epoll_event.mk (EPOLLIN ||| EPOLLOUT) 7]
          (loopStart 0 10 []) 1).world = [Applied.read 7] ∧
      (stateAt (recordingHandlers statusByKind) [epoll_event.mk (EPOLLIN ||| EPOLLOUT) 7]
          (loopStart 0 10 []) 1).ret = 1 :=
  ⟨by decide,
    (dispatch_one_handler_by_priority (recordingHandlers statusByKind) recordingSweep
      [epoll_event.mk (EPOLLIN ||| EPOLLOUT) 7] (loopStart 0 10 []) 0 (by decide)).1.trans
      (by decide),
    by decide, by decide⟩

/-- C2: in a batch where descriptor `D` is the descriptor of entry `i` and
of no other entry, if the handler call `c` made for that entry returned a
negative status `r`, then `c` is a handler call on `D`, the calls made for
the entry are `c` followed at once by the close call on `D`, the batch is
the calls of the earlier entries, then these two, then the calls of the
later entries, the close handler is called on `D` exactly once in the
batch, and no handler is called on `D` for a later entry. These are the
calls really made: `r` is what the handler of `c` returns in the world in
which the entry is reached, the world after the entry is the close handler
applied to `D` in the world that handler leaves, and the calls of the batch,
applied in order, lead from the world before the batch to the world after. -/
theorem failed_handler_closes_once {W : Type} (h : mk_epoll_handlers W)
    (sched_check : W → W) (evs : List epoll_event) (s : LoopState W) (D : Int) (i : Nat)
    (hi : i < evs.length)
    (hD : ∀ j (hj : j < evs.length), evs[j].fd = D ↔ j = i)
    (c : Call) (r : Int) (hc : c ∈ entryCalls h evs s i)
    (hr : c.handlerStatus = some r) (hneg : r < 0) :
    (∃ k, c.dispatched = some (k, D)) ∧
      entryCalls h evs s i = [c, Call.close D] ∧
      batchCalls h evs s =
        callsBetween h evs s 0 i ++ [c, Call.close D] ++
          callsBetween h evs s (i + 1) evs.length ∧
      (batchCalls h evs s).count (Call.close D) = 1 ∧
      (∀ x ∈ callsBetween h evs s (i + 1) evs.length, ∀ k, x.dispatched ≠ some (k, D)) ∧
      c.returned h (stateAt h evs s i).world ∧
      (stateAt h evs s (i + 1)).world =
        h.close D (c.effect h sched_check (stateAt h evs s i).world) ∧
      Performs h sched_check (batchCalls h evs s) s.world (forLoop h evs s).world := by
  have hfd : evs[i].fd = D := (hD i hi).mpr rfl
  obtain ⟨hE, -, -⟩ := entryCalls_of_handler h evs s i hi c r hc hr
  rw [if_pos hneg, hfd] at hE
  have hE2 : entryCalls h evs s i = [c, Call.close D] := hE
  -- calls of the other entries are not about `D`
  have hother : ∀ a b, a ≤ b → b ≤ evs.length → (∀ j, a ≤ j → j < b → j ≠ i) →
      ∀ x ∈ callsBetween h evs s a b,
        x ≠ Call.close D ∧ ∀ k, x.dispatched ≠ some (k, D) := by
    intro a b hab hb hne x hx
    obtain ⟨j, hj1, hj2, hxj⟩ := mem_callsBetween h evs s a b hab hb x hx
    have hjlen : j < evs.length := Nat.lt_of_lt_of_le hj2 hb
    have hfdj : evs[j].fd ≠ D := fun hEq => hne j hj1 hj2 ((hD j hjlen).mp hEq)
    rcases entryCalls_target h evs s j hjlen x hxj with rfl | ⟨k0, r0, hk0, -⟩
    · refine ⟨fun hEq => hfdj (by injection hEq), fun k hk => ?_⟩
      simp [Call.dispatched] at hk
    · refine ⟨fun hEq => ?_, fun k hk => ?_⟩
      · rw [hEq] at hk0; simp [Call.dispatched] at hk0
      · rw [hk0] at hk
        injection hk with hk
        injection hk with _ hk
        exact hfdj hk
  have hpre := hother 0 i (Nat.zero_le _) (Nat.le_of_lt hi) (fun j _ hj => Nat.ne_of_lt hj)
  have hpost := hother (i + 1) evs.length hi (Nat.le_refl _)
    (fun j hj _ => Nat.ne_of_gt hj)
  have hsplit : batchCalls h evs s =
      callsBetween h evs s 0 i ++ [c, Call.close D] ++
        callsBetween h evs s (i + 1) evs.length := by
    rw [← callsBetween_all, callsBetween_split h evs s 0 (i + 1) evs.length (Nat.zero_le _) hi
      (Nat.le_refl _), callsBetween_succ h evs s 0 i (Nat.zero_le _) hi, hE2]
  have hcD : c ≠ Call.close D := by
    intro hEq
    rw [hEq] at hr
    simp [Call.handlerStatus] at hr
  have hperf := entry_performs h sched_check evs s i hi
  rw [hE2] at hperf
  obtain ⟨hret, -, hworld⟩ := hperf
  refine ⟨?_, hE2, hsplit, ?_, fun x hx => (hpost x hx).2, hret, hworld,
    batch_performs h sched_check evs s⟩
  · rcases entryCalls_target h evs s i hi c hc with rfl | ⟨k0, r0, hk0, -⟩
    · simp [Call.handlerStatus] at hr
    · exact ⟨k0, by rw [hk0, hfd]⟩
  · rw [hsplit, List.count_append, List.count_append,
      List.count_eq_zero_of_not_mem (fun hm => (hpre _ hm).1 rfl),
      List.count_eq_zero_of_not_mem (fun hm => (hpost _ hm).1 rfl)]
    rw [List.count_cons_of_ne (Ne.symm hcD), List.count_singleton_self]

/-- The write handler fails on descriptor 4, the second of three entries;
the handlers log their own application. -/
theorem failed_handler_closes_once_witness :
    (1 < exampleBatch.length ∧
      (∀ j (hj : j < exampleBatch.length), exampleBatch[j].fd = 4 ↔ j = 1) ∧
      Call.write 4 (-1) ∈
        entryCalls (recordingHandlers failsOnFour) exampleBatch (loopStart 0 10 []) 1 ∧
      (Call.write 4 (-1)).handlerStatus = some (-1) ∧ (-1 : Int) < 0) ∧
    batchCalls (recordingHandlers failsOnFour) exampleBatch (loopStart 0 10 []) =
      [Call.read 3 0, Call.write 4 (-1), Call.close 4, Call.read 5 0] ∧
    (forLoop (recordingHandlers failsOnFour) exampleBatch (loopStart 0 10 [])).world =
      [Applied.read 3, Applied.write 4, Applied.close 4, Applied.read 5] ∧
    (batchCalls (recordingHandlers failsOnFour) exampleBatch (loopStart 0 10 [])).count
      (Call.close 4) = 1 :=
  ⟨by decide, by decide, by decide,
    (failed_handler_closes_once (recordingHandlers failsOnFour) recordingSweep exampleBatch
      (loopStart 0 10 []) 4 1 (by decide) (by decide) (Call.write 4 (-1)) (-1) (by decide)
      (by decide) (by decide)).2.2.2.1⟩

/-- C3, as stated, fails: a batch whose only entry carries `EPOLLPRI` and
none of the recognised classes. No handler is called for it, so no handler
returned a negative status, and yet the close handler is called on its
descriptor. -/
theorem close_without_handler_counterexample :
    iterationCalls (constHandlers 0) id 10 (readyTick [⟨EPOLLPRI, 5⟩] 0) (loopStart 0 10 ()) =
        [Call.epoll_wait, Call.close 5] ∧
      ¬ ∃ c ∈ entryCalls (constHandlers 0) [⟨EPOLLPRI, 5⟩] (batchStart (loopStart 0 10 ())) 0,
          ∃ r, c.handlerStatus = some r ∧ r < 0 := by
  decide

/-- C3, amended: the close handler is called while the loop processes
entry `i` only on that entry's descriptor, and only if a handler called for
that entry returned a negative status or the entry carries none of the
recognised classes (so that no handler was called for it). A batch in which
every entry carries a recognised class and every handler call returns a
status `≥ 0` has no close call. -/
theorem close_only_after_failure_or_unrecognised {W : Type} (h : mk_epoll_handlers W)
    (evs : List epoll_event) (s : LoopState W) :
    (∀ i (hi : i < evs.length), ∀ fd, Call.close fd ∈ entryCalls h evs s i →
        fd = evs[i].fd ∧
          ((∃ c ∈ entryCalls h evs s i, ∃ r, c.handlerStatus = some r ∧ r < 0) ∨
            ¬ recognised evs[i].events)) ∧
      ((∀ ev ∈ evs, recognised ev.events) →
        (∀ c ∈ batchCalls h evs s, ∀ r, c.handlerStatus = some r → 0 ≤ r) →
        ∀ fd, Call.close fd ∉ batchCalls h evs s) := by
  have part1 : ∀ i (hi : i < evs.length), ∀ fd, Call.close fd ∈ entryCalls h evs s i →
      fd = evs[i].fd ∧
        ((∃ c ∈ entryCalls h evs s i, ∃ r, c.handlerStatus = some r ∧ r < 0) ∨
          ¬ recognised evs[i].events) := by
    intro i hi fd hmem
    obtain ⟨hcs, r, hE, -, -, hsel⟩ := entry_cases h evs s i hi
    have hclose : Call.close fd ∈ (if r < 0 then [Call.close evs[i].fd] else []) := by
      rw [hE, List.mem_append] at hmem
      rcases hmem with hm | hm
      · rcases hsel with ⟨-, rfl⟩ | ⟨-, rfl⟩ | ⟨-, rfl⟩ | ⟨-, rfl, -⟩ <;> simp at hm
      · exact hm
    have hr : r < 0 := by
      by_contra hn
      rw [if_neg hn] at hclose
      cases hclose
    rw [if_pos hr, List.mem_singleton] at hclose
    refine ⟨by injection hclose, ?_⟩
    rcases hsel with ⟨-, rfl⟩ | ⟨-, rfl⟩ | ⟨-, rfl⟩ | ⟨hnone, -, -⟩
    · exact Or.inl ⟨Call.read evs[i].fd r, by rw [hE]; simp, r, rfl, hr⟩
    · exact Or.inl ⟨Call.write evs[i].fd r, by rw [hE]; simp, r, rfl, hr⟩
    · exact Or.inl ⟨Call.error evs[i].fd r, by rw [hE]; simp, r, rfl, hr⟩
    · exact Or.inr ((selectedHandler_eq_none_iff _).mp hnone)
  refine ⟨part1, ?_⟩
  intro hrec hok fd hmem
  rw [← callsBetween_all] at hmem
  obtain ⟨j, -, hj, hxj⟩ :=
    mem_callsBetween h evs s 0 evs.length (Nat.zero_le _) (Nat.le_refl _) _ hmem
  rcases (part1 j hj fd hxj).2 with ⟨c, hc, r, hr, hneg⟩ | hn
  · have := hok c (entryCalls_subset_batchCalls h evs s j hj c hc) r hr
    omega
  · exact hn (hrec _ (List.getElem_mem hj))

/-- C10: the status variable is reset once per batch (`batchStart`), not
once per entry. For every entry `i` of a batch: the variable after the
entry is the status of the most recent handler call of the batch so far,
or `-1` when there is none; the close handler is called on the entry's
descriptor iff that value is negative; when a handler was called for the
entry the value is that handler's status; when the entry carries no
recognised class the value is the one left by the earlier entries, no
handler is called, and the entry is closed iff that value is negative. In
particular such an entry is closed when it is first in the batch. The calls
recorded are the calls made: those of the batch up to and including entry
`i`, applied in order to the world before the batch, return the recorded
statuses and give the world after entry `i`, and so do those of entry `i`
alone from the world in which it is reached; for an entry without a
recognised class the world after it is the close handler applied to that
world when the value left is negative, and that world otherwise. -/
theorem close_decision_exact {W : Type} (h : mk_epoll_handlers W) (sched_check : W → W)
    (evs : List epoll_event) (s : LoopState W) (i : Nat) (hi : i < evs.length) :
    (stateAt h evs (batchStart s) (i + 1)).ret =
        statusLeftBy (callsBetween h evs (batchStart s) 0 (i + 1)) ∧
      (Call.close evs[i].fd ∈ entryCalls h evs (batchStart s) i ↔
        statusLeftBy (callsBetween h evs (batchStart s) 0 (i + 1)) < 0) ∧
      (∀ c ∈ entryCalls h evs (batchStart s) i, ∀ r, c.handlerStatus = some r →
        statusLeftBy (callsBetween h evs (batchStart s) 0 (i + 1)) = r) ∧
      (¬ recognised evs[i].events →
        statusLeftBy (callsBetween h evs (batchStart s) 0 (i + 1)) =
            statusLeftBy (callsBetween h evs (batchStart s) 0 i) ∧
          entryCalls h evs (batchStart s) i =
            if statusLeftBy (callsBetween h evs (batchStart s) 0 i) < 0 then
              [Call.close evs[i].fd]
            else []) ∧
      (i = 0 → ¬ recognised evs[i].events →
        entryCalls h evs (batchStart s) i = [Call.close evs[i].fd]) ∧
      Performs h sched_check (callsBetween h evs (batchStart s) 0 (i + 1)) s.world
        (stateAt h evs (batchStart s) (i + 1)).world ∧
      Performs h sched_check (entryCalls h evs (batchStart s) i)
        (stateAt h evs (batchStart s) i).world (stateAt h evs (batchStart s) (i + 1)).world ∧
      (¬ recognised evs[i].events →
        (stateAt h evs (batchStart s) (i + 1)).world =
          if statusLeftBy (callsBetween h evs (batchStart s) 0 i) < 0 then
            h.close evs[i].fd (stateAt h evs (batchStart s) i).world
          else (stateAt h evs (batchStart s) i).world) := by
  have hs : (batchStart s).ret = -1 := rfl
  have hafter := stateAt_ret h evs (batchStart s) hs (i + 1) hi
  have hbefore := stateAt_ret h evs (batchStart s) hs i (Nat.le_of_lt hi)
  have hunrec : ¬ recognised evs[i].events →
      statusLeftBy (callsBetween h evs (batchStart s) 0 (i + 1)) =
          statusLeftBy (callsBetween h evs (batchStart s) 0 i) ∧
        entryCalls h evs (batchStart s) i =
          if statusLeftBy (callsBetween h evs (batchStart s) 0 i) < 0 then
            [Call.close evs[i].fd]
          else [] := by
    intro hn
    obtain ⟨hE, hret⟩ := entryCalls_of_unrecognised h evs (batchStart s) i hi hn
    rw [← hafter, ← hbefore]
    exact ⟨hret, hE⟩
  have hprefix := callsBetween_performs h sched_check evs (batchStart s) 0 (i + 1)
    (Nat.zero_le _) hi
  rw [stateAt_zero] at hprefix
  have hentry := entry_performs h sched_check evs (batchStart s) i hi
  have hworld : ¬ recognised evs[i].events →
      (stateAt h evs (batchStart s) (i + 1)).world =
        if statusLeftBy (callsBetween h evs (batchStart s) 0 i) < 0 then
          h.close evs[i].fd (stateAt h evs (batchStart s) i).world
        else (stateAt h evs (batchStart s) i).world := by
    intro hn
    have hE := (hunrec hn).2
    rw [hE] at hentry
    split_ifs at hentry ⊢ with hneg
    · exact hentry.2
    · exact hentry
  refine ⟨hafter, ?_, ?_, hunrec, ?_, hprefix, hentry, hworld⟩
  · rw [← hafter]
    obtain ⟨hcs, r, hE, -, hret, hsel⟩ := entry_cases h evs (batchStart s) i hi
    rw [hret, hE, List.mem_append]
    constructor
    · rintro (hm | hm)
      · rcases hsel with ⟨-, rfl⟩ | ⟨-, rfl⟩ | ⟨-, rfl⟩ | ⟨-, rfl, -⟩ <;> simp at hm
      · by_contra hn
        rw [if_neg hn] at hm
        cases hm
    · intro hr
      right
      rw [if_pos hr]
      exact List.mem_singleton.mpr rfl
  · intro c hc r hr
    rw [← hafter]
    exact (entryCalls_of_handler h evs (batchStart s) i hi c r hc hr).2.1
  · intro h0 hn
    subst h0
    have := (hunrec hn).2
    rw [callsBetween_self] at this
    exact this

/-- An entry without a recognised class after a handler that succeeded is
not closed, and no handler is applied for it: the handlers' own log holds
the read of the first entry only. -/
theorem close_decision_exact_witness :
    1 < exampleBatchPri.length ∧
      entryCalls (recordingHandlers alwaysOk) exampleBatchPri (batchStart (loopStart 0 10 []))
        1 = [] ∧
      statusLeftBy
        (callsBetween (recordingHandlers alwaysOk) exampleBatchPri
          (batchStart (loopStart 0 10 [])) 0 2) = 0 ∧
      (stateAt (recordingHandlers alwaysOk) exampleBatchPri (batchStart (loopStart 0 10 []))
        2).world = [Applied.read 3] :=
  ⟨by decide,
    ((close_decision_exact (recordingHandlers alwaysOk) recordingSweep exampleBatchPri
      (loopStart 0 10 []) 1 (by decide)).2.2.2.1 (by decide)).2.trans (by decide),
    by decide, by decide⟩

/-! ## Whole batches and whole runs -/

theorem iteration_calls {W : Type} (h : mk_epoll_handlers W) (sched_check : W → W)
    (timeout : Int) (t : Tick) (s : LoopState W) :
    (iteration h sched_check timeout t s).trace =
      s.trace ++ (Call.epoll_wait :: batchCalls h t.wait.batch (batchStart s) ++
        if t.utime_check ≥ s.fds_timeout then [Call.check_timeouts t.utime_check] else []) := by
  have htr := forLoop_trace h t.wait.batch (batchStart s)
  have hfd := forLoop_fds_timeout h t.wait.batch (batchStart s)
  have hfd2 : (batchStart s).fds_timeout = s.fds_timeout := rfl
  have htr2 : (batchStart s).trace = s.trace ++ [Call.epoll_wait] := rfl
  unfold iteration
  simp only [hfd, hfd2]
  split_ifs with hsw
  · simp [htr, htr2]
  · simp [htr, htr2]

theorem iterationCalls_eq {W : Type} (h : mk_epoll_handlers W) (sched_check : W → W)
    (timeout : Int) (t : Tick) (s : LoopState W) :
    iterationCalls h sched_check timeout t s =
      Call.epoll_wait :: batchCalls h t.wait.batch (batchStart s) ++
        if t.utime_check ≥ s.fds_timeout then [Call.check_timeouts t.utime_check] else [] := by
  unfold iterationCalls
  rw [iteration_calls, List.drop_left]

theorem loop_trace {W : Type} (h : mk_epoll_handlers W) (sched_check : W → W)
    (timeout : Int) (ticks : List Tick) (s : LoopState W) :
    (loop h sched_check timeout ticks s).trace =
      s.trace ++ loopCalls h sched_check timeout ticks s := by
  induction ticks generalizing s with
  | nil => simp [loop, loopCalls]
  | cons t rest ih =>
    unfold loopCalls
    show (loop h sched_check timeout rest (iteration h sched_check timeout t s)).trace = _
    rw [show loop h sched_check timeout (t :: rest) s =
      loop h sched_check timeout rest (iteration h sched_check timeout t s) from rfl,
      ih, iteration_calls, List.append_assoc, List.drop_left]

theorem loopCalls_cons {W : Type} (h : mk_epoll_handlers W) (sched_check : W → W)
    (timeout : Int) (t : Tick) (rest : List Tick) (s : LoopState W) :
    loopCalls h sched_check timeout (t :: rest) s =
      iterationCalls h sched_check timeout t s ++
        loopCalls h sched_check timeout rest (iteration h sched_check timeout t s) := by
  have h1 := loop_trace h sched_check timeout rest (iteration h sched_check timeout t s)
  have h2 := loop_trace h sched_check timeout (t :: rest) s
  have h3 : (iteration h sched_check timeout t s).trace =
      s.trace ++ iterationCalls h sched_check timeout t s := by
    rw [iteration_calls, iterationCalls_eq]
  rw [show loop h sched_check timeout (t :: rest) s =
    loop h sched_check timeout rest (iteration h sched_check timeout t s) from rfl, h1, h3,
    List.append_assoc] at h2
  exact (List.append_cancel_left h2).symm

theorem loopCalls_nil {W : Type} (h : mk_epoll_handlers W) (sched_check : W → W)
    (timeout : Int) (s : LoopState W) : loopCalls h sched_check timeout [] s = [] := by
  simp [loopCalls, loop]

theorem batchCalls_dispatched {W : Type} (h : mk_epoll_handlers W) (evs : List epoll_event)
    (s : LoopState W) :
    (batchCalls h evs s).filterMap Call.dispatched = evs.filterMap selectedCall := by
  have key : ∀ b, b ≤ evs.length →
      (callsBetween h evs s 0 b).filterMap Call.dispatched =
        (evs.take b).filterMap selectedCall := by
    intro b
    induction b with
    | zero => intro _; simp [callsBetween_self]
    | succ k ih =>
      intro hk
      rw [callsBetween_succ h evs s 0 k (Nat.zero_le _) hk, List.filterMap_append,
        ih (Nat.le_of_succ_le hk), entryCalls_dispatched h evs s k hk, List.take_succ,
        List.getElem?_eq_getElem hk, List.filterMap_append]
      congr 1
  rw [← callsBetween_all, key evs.length (Nat.le_refl _), List.take_length]

theorem iteration_world {W : Type} (h : mk_epoll_handlers W) (sched_check : W → W)
    (timeout : Int) (t : Tick) (s : LoopState W) :
    (iteration h sched_check timeout t s).world =
      if t.utime_check ≥ s.fds_timeout then
        sched_check (forLoop h t.wait.batch (batchStart s)).world
      else (forLoop h t.wait.batch (batchStart s)).world := by
  have hfd := forLoop_fds_timeout h t.wait.batch (batchStart s)
  have hfd2 : (batchStart s).fds_timeout = s.fds_timeout := rfl
  unfold iteration
  simp only [hfd, hfd2]
  split_ifs <;> rfl

/-- One pass of `while (1)` applies the handlers and the sweep it records,
and no other. -/
theorem iteration_performs {W : Type} (h : mk_epoll_handlers W) (sched_check : W → W)
    (timeout : Int) (t : Tick) (s : LoopState W) :
    Performs h sched_check (iterationCalls h sched_check timeout t s) s.world
      (iteration h sched_check timeout t s).world := by
  rw [iterationCalls_eq, iteration_world]
  refine ⟨trivial, ?_⟩
  have hb : Performs h sched_check (batchCalls h t.wait.batch (batchStart s)) s.world
      (forLoop h t.wait.batch (batchStart s)).world :=
    batch_performs h sched_check t.wait.batch (batchStart s)
  refine performs_append h sched_check _ _ _ _ _ hb ?_
  split_ifs
  · exact ⟨trivial, rfl⟩
  · exact rfl

theorem loop_performs {W : Type} (h : mk_epoll_handlers W) (sched_check : W → W)
    (timeout : Int) (ticks : List Tick) (s : LoopState W) :
    Performs h sched_check (loopCalls h sched_check timeout ticks s) s.world
      (loop h sched_check timeout ticks s).world := by
  induction ticks generalizing s with
  | nil =>
    rw [loopCalls_nil]
    exact rfl
  | cons t rest ih =>
    rw [loopCalls_cons]
    exact performs_append h sched_check _ _ _ _ _
      (iteration_performs h sched_check timeout t s)
      (ih (iteration h sched_check timeout t s))

/-- The `for` loop calls nothing but handlers and the close handler. -/
theorem batchCalls_kind {W : Type} (h : mk_epoll_handlers W) (evs : List epoll_event)
    (s : LoopState W) (x : Call) (hx : x ∈ batchCalls h evs s) :
    x ≠ Call.epoll_wait ∧ x.sweepTime = none := by
  rw [← callsBetween_all] at hx
  obtain ⟨j, -, hj, hxj⟩ :=
    mem_callsBetween h evs s 0 evs.length (Nat.zero_le _) (Nat.le_refl _) x hx
  rcases entryCalls_target h evs s j hj x hxj with rfl | ⟨k, r, hk, -⟩
  · exact ⟨(fun hEq => by cases hEq), rfl⟩
  · cases x <;> simp [Call.dispatched] at hk <;> exact ⟨(fun hEq => by cases hEq), rfl⟩

theorem iterationCalls_count_wait {W : Type} (h : mk_epoll_handlers W) (sched_check : W → W)
    (timeout : Int) (t : Tick) (s : LoopState W) :
    (iterationCalls h sched_check timeout t s).count Call.epoll_wait = 1 := by
  rw [iterationCalls_eq, List.count_append, List.count_cons_self,
    List.count_eq_zero_of_not_mem (fun hm => (batchCalls_kind h _ _ _ hm).1 rfl)]
  split_ifs <;> simp

theorem loopCalls_count_wait {W : Type} (h : mk_epoll_handlers W) (sched_check : W → W)
    (timeout : Int) (ticks : List Tick) (s : LoopState W) :
    (loopCalls h sched_check timeout ticks s).count Call.epoll_wait = ticks.length := by
  induction ticks generalizing s with
  | nil => rw [loopCalls_nil]; rfl
  | cons t rest ih =>
    rw [loopCalls_cons, List.count_append, iterationCalls_count_wait, ih, List.length_cons]
    omega

theorem iterationCalls_dispatched {W : Type} (h : mk_epoll_handlers W) (sched_check : W → W)
    (timeout : Int) (t : Tick) (s : LoopState W) :
    (iterationCalls h sched_check timeout t s).filterMap Call.dispatched =
      t.wait.batch.filterMap selectedCall := by
  rw [iterationCalls_eq, List.filterMap_append, List.filterMap_cons_none rfl,
    batchCalls_dispatched]
  split_ifs <;> simp [Call.dispatched]

/-- C9: the loop processes the entries of a batch in the order of the wait
call, each once: the calls of a batch are the calls of entry 0, then those
of entry 1, and so on; the handler calls made for an entry are the call
selected for it, which is a function of that entry alone; so the handler
calls of a batch, and of any run of batches over the entries
`events[0..num_fds-1]` of each wait call, are the selected calls of the
entries in order, whatever statuses the handlers return; every tick of a
run is waited for, whatever happened before; and the calls recorded are the
calls made: applied in order to the world before the batch (or the run)
they return the recorded statuses and give the world after it. -/
theorem batch_order_and_isolation {W : Type} (h : mk_epoll_handlers W)
    (sched_check : W → W) (timeout : Int) :
    (∀ evs s, batchCalls h evs s = (List.range evs.length).flatMap (entryCalls h evs s)) ∧
      (∀ evs s i (hi : i < evs.length),
        (entryCalls h evs s i).filterMap Call.dispatched = (selectedCall evs[i]).toList) ∧
      (∀ evs s, (batchCalls h evs s).filterMap Call.dispatched = evs.filterMap selectedCall) ∧
      (∀ ticks s, (loopCalls h sched_check timeout ticks s).filterMap Call.dispatched =
        ticks.flatMap
          (fun t => (t.wait.events.take t.wait.num_fds.toNat).filterMap selectedCall)) ∧
      (∀ ticks s,
        (loopCalls h sched_check timeout ticks s).count Call.epoll_wait = ticks.length) ∧
      (∀ evs s, Performs h sched_check (batchCalls h evs s) s.world (forLoop h evs s).world) ∧
      (∀ ticks s, Performs h sched_check (loopCalls h sched_check timeout ticks s) s.world
        (loop h sched_check timeout ticks s).world) := by
  refine ⟨?_, ?_, ?_, ?_, ?_, ?_, ?_⟩
  · intro evs s
    rw [← callsBetween_all]
    exact callsBetween_eq_flatMap h evs s evs.length (Nat.le_refl _)
  · intro evs s i hi
    exact entryCalls_dispatched h evs s i hi
  · intro evs s
    exact batchCalls_dispatched h evs s
  · intro ticks
    induction ticks with
    | nil => intro s; rw [loopCalls_nil]; rfl
    | cons t rest ih =>
      intro s
      rw [loopCalls_cons, List.filterMap_append, iterationCalls_dispatched, ih,
        List.flatMap_cons]
      rfl
  · intro ticks s
    exact loopCalls_count_wait h sched_check timeout ticks s
  · intro evs s
    exact batch_performs h sched_check evs s
  · intro ticks s
    exact loop_performs h sched_check timeout ticks s

/-- Two batches, the write handler failing on descriptor 4 in the first:
the handlers' own log shows every entry of both batches served in order. -/
theorem batch_order_and_isolation_witness :
    (loopCalls (recordingHandlers failsOnFour) recordingSweep 10
        [readyTick exampleBatch 0, readyTick exampleBatchPri 0]
        (loopStart 0 10 [])).filterMap Call.dispatched =
      [(HandlerKind.read, 3), (HandlerKind.write, 4), (HandlerKind.read, 5),
        (HandlerKind.read, 3)] ∧
    (loop (recordingHandlers failsOnFour) recordingSweep 10
        [readyTick exampleBatch 0, readyTick exampleBatchPri 0] (loopStart 0 10 [])).world =
      [Applied.read 3, Applied.write 4, Applied.close 4, Applied.read 5, Applied.read 3] :=
  ⟨((batch_order_and_isolation (recordingHandlers failsOnFour) recordingSweep 10).2.2.2.1
      [readyTick exampleBatch 0, readyTick exampleBatchPri 0] (loopStart 0 10 [])).trans
      (by decide),
    by decide⟩

/-! ## Failure of the wait call -/

/-- C5, as stated, fails in its second half: the first wait call fails with
`EBADF`, which is not an interrupted system call, and the loop goes on: it
waits again and calls the read handler for the entry of the second batch. -/
theorem wait_failure_not_fatal_counterexample :
    (failedTick EBADF [] 0).wait.num_fds < 0 ∧ (failedTick EBADF [] 0).wait.errno ≠ EINTR ∧
      (mk_epoll_init (constHandlers 0) id 10 0
          [failedTick EBADF [] 0, readyTick [⟨EPOLLIN, 7⟩] 0] ()).trace =
        [Call.epoll_wait, Call.epoll_wait, Call.read 7 0] := by
  decide

/-- C5, amended: when the wait call returns a negative count, whatever
`errno` says, the pass calls no handler and no close handler: after the
wait call it only does the timeout check; the value of `errno` has no effect
on the pass; and the loop goes on: the run continues with the next passes,
each of which waits again. -/
theorem wait_failure_skips_dispatch {W : Type} (h : mk_epoll_handlers W)
    (sched_check : W → W) (timeout : Int) (t : Tick) (s : LoopState W)
    (hfail : t.wait.num_fds < 0) :
    iterationCalls h sched_check timeout t s =
        Call.epoll_wait ::
          (if t.utime_check ≥ s.fds_timeout then [Call.check_timeouts t.utime_check] else []) ∧
      (∀ e, iteration h sched_check timeout { t with wait := { t.wait with errno := e } } s =
        iteration h sched_check timeout t s) ∧
      (∀ rest, loopCalls h sched_check timeout (t :: rest) s =
        iterationCalls h sched_check timeout t s ++
          loopCalls h sched_check timeout rest (iteration h sched_check timeout t s)) ∧
      (∀ rest, (loopCalls h sched_check timeout (t :: rest) s).count Call.epoll_wait =
        rest.length + 1) := by
  have hbatch : t.wait.batch = [] := by
    unfold WaitResult.batch
    rw [Int.toNat_eq_zero.mpr (Int.le_of_lt hfail), List.take_zero]
  refine ⟨?_, fun e => rfl, fun rest => loopCalls_cons h sched_check timeout t rest s,
    fun rest => ?_⟩
  · rw [iterationCalls_eq, hbatch]
    simp [batchCalls, forLoop]
  · rw [loopCalls_count_wait, List.length_cons]

/-- A wait call interrupted by a signal, with stale entries in the buffer. -/
theorem wait_failure_skips_dispatch_witness :
    (failedTick EINTR [⟨EPOLLIN, 7⟩] 0).wait.num_fds < 0 ∧
      iterationCalls (constHandlers 0) id 10 (failedTick EINTR [⟨EPOLLIN, 7⟩] 0)
          (loopStart 0 10 ()) = [Call.epoll_wait] :=
  ⟨by decide,
    (wait_failure_skips_dispatch (constHandlers 0) id 10 (failedTick EINTR [⟨EPOLLIN, 7⟩] 0)
      (loopStart 0 10 ()) (by decide)).1.trans (by decide)⟩

/-! ## The timeout sweep -/

theorem toInt32_of_inInt32 (x : Int) (hx : InInt32 x) : toInt32 x = x := by
  unfold InInt32 at hx
  unfold toInt32
  omega

theorem iteration_fds_timeout {W : Type} (h : mk_epoll_handlers W) (sched_check : W → W)
    (timeout : Int) (t : Tick) (s : LoopState W) :
    (iteration h sched_check timeout t s).fds_timeout =
      if t.utime_check ≥ s.fds_timeout then toInt32 (t.utime_update + timeout)
      else s.fds_timeout := by
  have hfd := forLoop_fds_timeout h t.wait.batch (batchStart s)
  have hfd2 : (batchStart s).fds_timeout = s.fds_timeout := rfl
  unfold iteration
  simp only [hfd, hfd2]
  split_ifs
  · rfl
  · rw [hfd, hfd2]

theorem iterationCalls_sweeps {W : Type} (h : mk_epoll_handlers W) (sched_check : W → W)
    (timeout : Int) (t : Tick) (s : LoopState W) :
    (iterationCalls h sched_check timeout t s).filterMap Call.sweepTime =
      if t.utime_check ≥ s.fds_timeout then [t.utime_check] else [] := by
  have hb : (batchCalls h t.wait.batch (batchStart s)).filterMap Call.sweepTime = [] :=
    List.filterMap_eq_nil_iff.mpr (fun x hx => (batchCalls_kind h _ _ x hx).2)
  rw [iterationCalls_eq, List.filterMap_append, List.filterMap_cons_none rfl, hb,
    List.nil_append]
  split_ifs <;> rfl

theorem loop_append {W : Type} (h : mk_epoll_handlers W) (sched_check : W → W)
    (timeout : Int) (a b : List Tick) (s : LoopState W) :
    loop h sched_check timeout (a ++ b) s =
      loop h sched_check timeout b (loop h sched_check timeout a s) := by
  induction a generalizing s with
  | nil => rfl
  | cons t rest ih => exact ih (iteration h sched_check timeout t s)

/-- Along a run, every sweep fires at a clock value that is at least the
deadline the run started with, and consecutive sweeps are at least the
timeout interval apart. -/
theorem loop_sweeps {W : Type} (h : mk_epoll_handlers W) (sched_check : W → W)
    (timeout : Int) (hT : 0 ≤ timeout) (ticks : List Tick)
    (hmono : ∀ t ∈ ticks, t.utime_check ≤ t.utime_update)
    (hno : ∀ t ∈ ticks, InInt32 (t.utime_update + timeout)) (s : LoopState W) :
    (∀ u ∈ (loopCalls h sched_check timeout ticks s).filterMap Call.sweepTime,
        s.fds_timeout ≤ u) ∧
      List.Chain' (fun a b => a + timeout ≤ b)
        ((loopCalls h sched_check timeout ticks s).filterMap Call.sweepTime) := by
  induction ticks generalizing s with
  | nil =>
    rw [loopCalls_nil]
    exact ⟨(fun u hu => by cases hu), List.chain'_nil⟩
  | cons t rest ih =>
    have hmono' : ∀ t ∈ rest, t.utime_check ≤ t.utime_update :=
      fun x hx => hmono x (List.mem_cons_of_mem _ hx)
    have hno' : ∀ t ∈ rest, InInt32 (t.utime_update + timeout) :=
      fun x hx => hno x (List.mem_cons_of_mem _ hx)
    obtain ⟨ihlow, ihchain⟩ := ih hmono' hno' (iteration h sched_check timeout t s)
    have hcu := hmono t (List.mem_cons_self _ _)
    have hfd := iteration_fds_timeout h sched_check timeout t s
    rw [toInt32_of_inInt32 _ (hno t (List.mem_cons_self _ _))] at hfd
    rw [loopCalls_cons, List.filterMap_append, iterationCalls_sweeps]
    by_cases hsw : t.utime_check ≥ s.fds_timeout
    · rw [if_pos hsw] at hfd ⊢
      rw [hfd] at ihlow
      constructor
      · intro u hu
        rcases List.mem_append.mp hu with hu | hu
        · rw [List.mem_singleton.mp hu]; exact hsw
        · have := ihlow u hu
          omega
      · refine List.Chain'.cons' ihchain ?_
        intro y hy
        have := ihlow y (List.mem_of_mem_head? hy)
        omega
    · rw [if_neg hsw] at hfd ⊢
      rw [hfd] at ihlow
      exact ⟨ihlow, ihchain⟩

/-- A non-decreasing clock: within a pass the read at line 143 is not after
the read at line 145. -/
theorem clockReads_check_le_update (utime_start : Int) (ticks : List Tick)
    (hmono : List.Chain' (· ≤ ·) (clockReads utime_start ticks)) (t : Tick) (ht : t ∈ ticks) :
    t.utime_check ≤ t.utime_update := by
  obtain ⟨a, b, rfl⟩ := List.append_of_mem ht
  have hsplit : clockReads utime_start (a ++ t :: b) =
      (utime_start :: a.flatMap (fun t => [t.utime_check, t.utime_update])) ++
        t.utime_check :: t.utime_update ::
          b.flatMap (fun t => [t.utime_check, t.utime_update]) := by
    simp [clockReads]
  rw [hsplit] at hmono
  exact (List.chain'_append_cons_cons.mp hmono).2.1

theorem clockReads_update_mem (utime_start : Int) (ticks : List Tick) (t : Tick)
    (ht : t ∈ ticks) : t.utime_update ∈ clockReads utime_start ticks := by
  unfold clockReads
  refine List.mem_cons_of_mem _ (List.mem_flatMap.mpr ⟨t, ht, ?_⟩)
  simp

/-- C4: with a timeout interval `T ≥ 0`, a non-decreasing clock and no
overflow of `int`, the deadline starts at (clock at loop start) `+ T`; in
every pass of a run the sweep is called at most once, exactly when the
clock read at line 143 is `≥` the deadline, after which the deadline is
(the clock read at line 145) `+ T`, and otherwise the deadline is kept;
hence no sweep fires at a clock value below `start + T`, and the clock
values of two consecutive sweeps differ by at least `T`. The sweep recorded
is the sweep made: in a pass where the clock read is `≥` the deadline the
world after the pass is `mk_sched_check_timeouts` applied to the world the
batch leaves, otherwise it is that world; and the calls recorded for the
run, applied in order to the initial world, give the final world. -/
theorem sweep_cadence {W : Type} (h : mk_epoll_handlers W) (sched_check : W → W)
    (T utime_start : Int) (ticks : List Tick) (w : W) (hT : 0 ≤ T)
    (hmono : List.Chain' (· ≤ ·) (clockReads utime_start ticks))
    (hno : ∀ u ∈ clockReads utime_start ticks, InInt32 (u + T)) :
    (loopStart utime_start T w).fds_timeout = utime_start + T ∧
      (∀ pre t post, ticks = pre ++ t :: post →
        (iterationCalls h sched_check T t
            (mk_epoll_init h sched_check T utime_start pre w)).filterMap Call.sweepTime =
          (if t.utime_check ≥ (mk_epoll_init h sched_check T utime_start pre w).fds_timeout
            then [t.utime_check] else []) ∧
        (mk_epoll_init h sched_check T utime_start (pre ++ [t]) w).fds_timeout =
          (if t.utime_check ≥ (mk_epoll_init h sched_check T utime_start pre w).fds_timeout
            then t.utime_update + T
            else (mk_epoll_init h sched_check T utime_start pre w).fds_timeout) ∧
        (mk_epoll_init h sched_check T utime_start (pre ++ [t]) w).world =
          (if t.utime_check ≥ (mk_epoll_init h sched_check T utime_start pre w).fds_timeout
            then sched_check (forLoop h t.wait.batch
              (batchStart (mk_epoll_init h sched_check T utime_start pre w))).world
            else (forLoop h t.wait.batch
              (batchStart (mk_epoll_init h sched_check T utime_start pre w))).world)) ∧
      (∀ u ∈ (mk_epoll_init h sched_check T utime_start ticks w).trace.filterMap
          Call.sweepTime, utime_start + T ≤ u) ∧
      List.Chain' (fun a b => a + T ≤ b)
        ((mk_epoll_init h sched_check T utime_start ticks w).trace.filterMap
          Call.sweepTime) ∧
      Performs h sched_check (mk_epoll_init h sched_check T utime_start ticks w).trace w
        (mk_epoll_init h sched_check T utime_start ticks w).world := by
  have hstart : (loopStart utime_start T w).fds_timeout = utime_start + T :=
    toInt32_of_inInt32 _ (hno utime_start (List.mem_cons_self _ _))
  have hcu := clockReads_check_le_update utime_start ticks hmono
  have hup : ∀ t ∈ ticks, InInt32 (t.utime_update + T) :=
    fun t ht => hno _ (clockReads_update_mem utime_start ticks t ht)
  have htrace : (mk_epoll_init h sched_check T utime_start ticks w).trace =
      loopCalls h sched_check T ticks (loopStart utime_start T w) := by
    unfold mk_epoll_init
    rw [loop_trace]
    rfl
  obtain ⟨hlow, hchain⟩ :=
    loop_sweeps h sched_check T hT ticks hcu hup (loopStart utime_start T w)
  rw [hstart] at hlow
  have hperf : Performs h sched_check
      (mk_epoll_init h sched_check T utime_start ticks w).trace w
      (mk_epoll_init h sched_check T utime_start ticks w).world := by
    rw [htrace]
    exact loop_performs h sched_check T ticks (loopStart utime_start T w)
  refine ⟨hstart, ?_, by rw [htrace]; exact hlow, by rw [htrace]; exact hchain, hperf⟩
  intro pre t post hsplit
  have ht : t ∈ ticks := by rw [hsplit]; simp
  refine ⟨iterationCalls_sweeps h sched_check T t _, ?_, ?_⟩
  swap
  · have hstep : mk_epoll_init h sched_check T utime_start (pre ++ [t]) w =
        iteration h sched_check T t (mk_epoll_init h sched_check T utime_start pre w) := by
      unfold mk_epoll_init
      rw [loop_append]
      rfl
    rw [hstep, iteration_world]
  have hstep : mk_epoll_init h sched_check T utime_start (pre ++ [t]) w =
      iteration h sched_check T t (mk_epoll_init h sched_check T utime_start pre w) := by
    unfold mk_epoll_init
    rw [loop_append]
    rfl
  rw [hstep, iteration_fds_timeout, toInt32_of_inInt32 _ (hup t ht)]

/-- Timeout 10, loop start at clock 0, passes at clock 5, 10, 12 and 25: the
sweep fires at 10 and at 25, and the log kept by the sweep itself shows it
applied twice. -/
theorem sweep_cadence_witness :
    ((0 : Int) ≤ 10 ∧ List.Chain' (· ≤ ·) (clockReads 0 exampleTicks) ∧
      ∀ u ∈ clockReads 0 exampleTicks, InInt32 (u + 10)) ∧
    (mk_epoll_init (recordingHandlers alwaysOk) recordingSweep 10 0 exampleTicks
        []).trace.filterMap Call.sweepTime = [10, 25] ∧
    (mk_epoll_init (recordingHandlers alwaysOk) recordingSweep 10 0 exampleTicks []).world =
      [Applied.sweep, Applied.sweep] ∧
    List.Chain' (fun a b => a + 10 ≤ b)
      ((mk_epoll_init (recordingHandlers alwaysOk) recordingSweep 10 0 exampleTicks
        []).trace.filterMap Call.sweepTime) :=
  ⟨⟨by decide, by simp [clockReads, exampleTicks, readyTick], by decide⟩, by decide, by decide,
    (sweep_cadence (recordingHandlers alwaysOk) recordingSweep 10 0 exampleTicks [] (by decide)
      (by simp [clockReads, exampleTicks, readyTick]) (by decide)).2.2.2.1⟩

/-! ## The interest registry -/

/-- C6: for every descriptor, every mode among read, write, read-write and
every behavior, `mk_epoll_add` returns what `epoll_ctl` returns for
`EPOLL_CTL_ADD` on the descriptor with an event that carries the descriptor
and whose mask is `EPOLLERR | EPOLLHUP | EPOLLRDHUP`, plus `EPOLLIN` iff the
mode is read or read-write, plus `EPOLLOUT` iff the mode is write or
read-write, plus `EPOLLET` iff the behavior is `MK_EPOLL_BEHAVIOR_TRIGGERED`. -/
theorem mk_epoll_add_mask {K : Type} (epoll_ctl : EpollCtl K) (c : MkEpollConsts)
    (hc : c.WellFormed) (efd fd init_mode behavior : Int) (k : K)
    (hmode : IsMode c init_mode) :
    mk_epoll_add epoll_ctl c efd fd init_mode behavior k =
        epoll_ctl k efd EPOLL_CTL_ADD fd (some
          { events := EPOLLERR ||| EPOLLHUP ||| EPOLLRDHUP |||
              (if init_mode = c.MK_EPOLL_READ ∨ init_mode = c.MK_EPOLL_RW then EPOLLIN else 0) |||
              (if init_mode = c.MK_EPOLL_WRITE ∨ init_mode = c.MK_EPOLL_RW then EPOLLOUT
                else 0) |||
              (if behavior = c.MK_EPOLL_BEHAVIOR_TRIGGERED then EPOLLET else 0),
            fd := fd }) ∧
      hasFlag (mk_epoll_add_event c fd init_mode behavior).events EPOLLERR ∧
      hasFlag (mk_epoll_add_event c fd init_mode behavior).events EPOLLHUP ∧
      hasFlag (mk_epoll_add_event c fd init_mode behavior).events EPOLLRDHUP ∧
      (hasFlag (mk_epoll_add_event c fd init_mode behavior).events EPOLLIN ↔
        init_mode = c.MK_EPOLL_READ ∨ init_mode = c.MK_EPOLL_RW) ∧
      (hasFlag (mk_epoll_add_event c fd init_mode behavior).events EPOLLOUT ↔
        init_mode = c.MK_EPOLL_WRITE ∨ init_mode = c.MK_EPOLL_RW) ∧
      (hasFlag (mk_epoll_add_event c fd init_mode behavior).events EPOLLET ↔
        behavior = c.MK_EPOLL_BEHAVIOR_TRIGGERED) := by
  obtain ⟨h12, h13, h23⟩ := hc
  unfold mk_epoll_add mk_epoll_add_event
  by_cases hb : behavior = c.MK_EPOLL_BEHAVIOR_TRIGGERED
  · rcases hmode with rfl | rfl | rfl
    · simp only [hb, h12, h13, if_true, if_false, true_or, or_false, false_or, iff_true]
      exact ⟨congrArg (fun m => epoll_ctl k efd EPOLL_CTL_ADD fd (some ⟨m, fd⟩)) (by decide),
        by decide⟩
    · simp only [hb, h12.symm, h23, if_true, if_false, true_or, or_false, false_or, iff_true,
        iff_false]
      exact ⟨congrArg (fun m => epoll_ctl k efd EPOLL_CTL_ADD fd (some ⟨m, fd⟩)) (by decide),
        by decide⟩
    · simp only [hb, h13.symm, h23.symm, if_true, if_false, or_true, iff_true]
      exact ⟨congrArg (fun m => epoll_ctl k efd EPOLL_CTL_ADD fd (some ⟨m, fd⟩)) (by decide),
        by decide⟩
  · rcases hmode with rfl | rfl | rfl
    · simp only [hb, h12, h13, if_true, if_false, true_or, or_false, false_or, iff_true,
        iff_false]
      exact ⟨congrArg (fun m => epoll_ctl k efd EPOLL_CTL_ADD fd (some ⟨m, fd⟩)) (by decide),
        by decide⟩
    · simp only [hb, h12.symm, h23, if_true, if_false, true_or, or_false, false_or, iff_true,
        iff_false]
      exact ⟨congrArg (fun m => epoll_ctl k efd EPOLL_CTL_ADD fd (some ⟨m, fd⟩)) (by decide),
        by decide⟩
    · simp only [hb, h13.symm, h23.symm, if_true, if_false, or_true, iff_true, iff_false]
      exact ⟨congrArg (fun m => epoll_ctl k efd EPOLL_CTL_ADD fd (some ⟨m, fd⟩)) (by decide),
        by decide⟩

/-- Registration of descriptor 4 in read mode, edge-triggered, with the
table model as kernel. -/
theorem mk_epoll_add_mask_witness :
    (exampleConsts.WellFormed ∧ IsMode exampleConsts 0) ∧
      (mk_epoll_add kernel_epoll_ctl exampleConsts 9 4 0 3 InterestTable.empty).1 = 0 ∧
      hasFlag (mk_epoll_add_event exampleConsts 4 0 3).events EPOLLRDHUP :=
  ⟨by decide, by decide,
    (mk_epoll_add_mask kernel_epoll_ctl exampleConsts (by decide) 9 4 0 3 InterestTable.empty
      (by decide)).2.2.2.1⟩

/-- C7, as stated, fails. Descriptor 4 is registered in read mode,
level-triggered (behavior 2 is not `MK_EPOLL_BEHAVIOR_TRIGGERED`), and then
changed to write mode: the mask submitted by `mk_epoll_change_mode` has
`EPOLLET` although the registration had not, and lacks `EPOLLRDHUP` which the
registration had, so it differs from the mask `mk_epoll_add` builds for
write mode with either trigger. -/
theorem change_mode_not_add_mask_counterexample :
    ¬ hasFlag (mk_epoll_add_event exampleConsts 4 0 2).events EPOLLET ∧
      hasFlag (mk_epoll_add_event exampleConsts 4 0 2).events EPOLLRDHUP ∧
      hasFlag (mk_epoll_change_mode_event exampleConsts 4 1).events EPOLLET ∧
      ¬ hasFlag (mk_epoll_change_mode_event exampleConsts 4 1).events EPOLLRDHUP ∧
      mk_epoll_change_mode_event exampleConsts 4 1 ≠ mk_epoll_add_event exampleConsts 4 1 2 ∧
      mk_epoll_change_mode_event exampleConsts 4 1 ≠ mk_epoll_add_event exampleConsts 4 1 3 ∧
      runCalls exampleConsts 9 [RegCall.add 4 0 2, RegCall.change_mode 4 1]
          InterestTable.empty 4 =
        some ⟨EPOLLET ||| EPOLLERR ||| EPOLLHUP ||| EPOLLOUT, 4⟩ := by
  decide

/-- C7, amended: for every new mode among read, write, read-write, and
whatever the descriptor was registered with, `mk_epoll_change_mode` returns
what `epoll_ctl` returns for `EPOLL_CTL_MOD` on the descriptor with an event
that carries the descriptor and whose mask always has `EPOLLET`, `EPOLLERR`
and `EPOLLHUP`, has `EPOLLIN` iff the new mode is read or read-write and
`EPOLLOUT` iff it is write or read-write; apart from the bit `EPOLLRDHUP` it
is the mask `mk_epoll_add` builds for the new mode, edge-triggered. -/
theorem mk_epoll_change_mode_mask {K : Type} (epoll_ctl : EpollCtl K) (c : MkEpollConsts)
    (hc : c.WellFormed) (efd fd mode : Int) (k : K) (hmode : IsMode c mode) :
    mk_epoll_change_mode epoll_ctl c efd fd mode k =
        epoll_ctl k efd EPOLL_CTL_MOD fd (some (mk_epoll_change_mode_event c fd mode)) ∧
      (mk_epoll_change_mode_event c fd mode).fd = fd ∧
      hasFlag (mk_epoll_change_mode_event c fd mode).events EPOLLET ∧
      hasFlag (mk_epoll_change_mode_event c fd mode).events EPOLLERR ∧
      hasFlag (mk_epoll_change_mode_event c fd mode).events EPOLLHUP ∧
      (hasFlag (mk_epoll_change_mode_event c fd mode).events EPOLLIN ↔
        mode = c.MK_EPOLL_READ ∨ mode = c.MK_EPOLL_RW) ∧
      (hasFlag (mk_epoll_change_mode_event c fd mode).events EPOLLOUT ↔
        mode = c.MK_EPOLL_WRITE ∨ mode = c.MK_EPOLL_RW) ∧
      (mk_epoll_change_mode_event c fd mode).events ||| EPOLLRDHUP =
        (mk_epoll_add_event c fd mode c.MK_EPOLL_BEHAVIOR_TRIGGERED).events := by
  obtain ⟨h12, h13, h23⟩ := hc
  refine ⟨rfl, rfl, ?_⟩
  unfold mk_epoll_change_mode_event mk_epoll_add_event
  rcases hmode with rfl | rfl | rfl
  · simp only [h12, h13, if_true, if_false, true_or, or_false, false_or, iff_true, iff_false]
    decide
  · simp only [h12.symm, h23, if_true, if_false, true_or, or_false, false_or, iff_true,
      iff_false]
    decide
  · simp only [h13.symm, h23.symm, if_true, if_false, or_true, iff_true]
    decide

/-- Change of descriptor 4 to write mode. -/
theorem mk_epoll_change_mode_mask_witness :
    (exampleConsts.WellFormed ∧ IsMode exampleConsts 1) ∧
      hasFlag (mk_epoll_change_mode_event exampleConsts 4 1).events EPOLLET :=
  ⟨by decide,
    (mk_epoll_change_mode_mask kernel_epoll_ctl exampleConsts (by decide) 9 4 1
      InterestTable.empty (by decide)).2.2.1⟩

/-! ### The registry over the table model -/

theorem run_frame (c : MkEpollConsts) (efd : Int) (x : RegCall) (tbl : InterestTable)
    (fd : Int) (hne : x.fd ≠ fd) : (x.run c efd tbl).2 fd = tbl fd := by
  cases x with
  | add fd0 m b =>
    have hne2 : fd ≠ fd0 := fun hEq => hne hEq.symm
    simp only [RegCall.run, mk_epoll_add, kernel_epoll_ctl, if_true]
    cases htbl : tbl fd0 <;> simp [Function.update_noteq hne2]
  | change_mode fd0 m =>
    have hne2 : fd ≠ fd0 := fun hEq => hne hEq.symm
    simp only [RegCall.run, mk_epoll_change_mode, kernel_epoll_ctl, EPOLL_CTL_MOD,
      EPOLL_CTL_ADD]
    cases htbl : tbl fd0 <;> simp [Function.update_noteq hne2]
  | del fd0 =>
    have hne2 : fd ≠ fd0 := fun hEq => hne hEq.symm
    simp only [RegCall.run, mk_epoll_del, kernel_epoll_ctl, EPOLL_CTL_MOD, EPOLL_CTL_ADD,
      EPOLL_CTL_DEL]
    cases htbl : tbl fd0 <;> simp [Function.update_noteq hne2]

theorem run_add_absent (c : MkEpollConsts) (efd fd m b : Int) (tbl : InterestTable)
    (habs : tbl fd = none) :
    ((RegCall.add fd m b).run c efd tbl).2 fd = some (mk_epoll_add_event c fd m b) := by
  simp [RegCall.run, mk_epoll_add, kernel_epoll_ctl, habs]

theorem run_change_mode_present (c : MkEpollConsts) (efd fd m : Int) (tbl : InterestTable)
    (ev : epoll_event) (hpres : tbl fd = some ev) :
    ((RegCall.change_mode fd m).run c efd tbl).2 fd =
      some (mk_epoll_change_mode_event c fd m) := by
  simp [RegCall.run, mk_epoll_change_mode, kernel_epoll_ctl, hpres, EPOLL_CTL_MOD,
    EPOLL_CTL_ADD]

theorem run_change_mode_absent (c : MkEpollConsts) (efd fd m : Int) (tbl : InterestTable)
    (habs : tbl fd = none) : ((RegCall.change_mode fd m).run c efd tbl).2 fd = none := by
  simp [RegCall.run, mk_epoll_change_mode, kernel_epoll_ctl, habs, EPOLL_CTL_MOD,
    EPOLL_CTL_ADD]

theorem run_del (c : MkEpollConsts) (efd fd : Int) (tbl : InterestTable) :
    ((RegCall.del fd).run c efd tbl).2 fd = none := by
  simp only [RegCall.run, mk_epoll_del, kernel_epoll_ctl, EPOLL_CTL_MOD, EPOLL_CTL_ADD,
    EPOLL_CTL_DEL]
  cases htbl : tbl fd <;> simp [htbl]

theorem add_event_modeBits (c : MkEpollConsts) (hc : c.WellFormed) (fd m b : Int)
    (hm : IsMode c m) :
    (mk_epoll_add_event c fd m b).events &&& (EPOLLIN ||| EPOLLOUT) = modeBits c m := by
  obtain ⟨h12, h13, h23⟩ := hc
  unfold mk_epoll_add_event modeBits
  by_cases hb : b = c.MK_EPOLL_BEHAVIOR_TRIGGERED
  · rcases hm with rfl | rfl | rfl
    · simp only [hb, h12, h13, if_true, if_false, true_or, or_false]; decide
    · simp only [hb, h12.symm, h23, if_true, if_false, true_or, or_false, false_or]; decide
    · simp only [hb, h13.symm, h23.symm, if_true, if_false, or_true]; decide
  · rcases hm with rfl | rfl | rfl
    · simp only [hb, h12, h13, if_true, if_false, true_or, or_false]; decide
    · simp only [hb, h12.symm, h23, if_true, if_false, true_or, or_false, false_or]; decide
    · simp only [hb, h13.symm, h23.symm, if_true, if_false, or_true]; decide

theorem change_mode_event_modeBits (c : MkEpollConsts) (hc : c.WellFormed) (fd m : Int)
    (hm : IsMode c m) :
    (mk_epoll_change_mode_event c fd m).events &&& (EPOLLIN ||| EPOLLOUT) = modeBits c m := by
  obtain ⟨h12, h13, h23⟩ := hc
  unfold mk_epoll_change_mode_event modeBits
  rcases hm with rfl | rfl | rfl
  · simp only [h12, h13, if_true, if_false, true_or, or_false]; decide
  · simp only [h12.symm, h23, if_true, if_false, true_or, or_false, false_or]; decide
  · simp only [h13.symm, h23.symm, if_true, if_false, or_true]; decide

theorem runCalls_snoc (c : MkEpollConsts) (efd : Int) (calls : List RegCall) (x : RegCall)
    (tbl : InterestTable) :
    runCalls c efd (calls ++ [x]) tbl = (x.run c efd (runCalls c efd calls tbl)).2 := by
  simp [runCalls, List.foldl_append]

theorem noDoubleRegistration_snoc (c : MkEpollConsts) (efd : Int) (calls : List RegCall)
    (x : RegCall) (tbl : InterestTable)
    (hnd : NoDoubleRegistration c efd (calls ++ [x]) tbl) :
    NoDoubleRegistration c efd calls tbl ∧
      ∀ fd m b, x = RegCall.add fd m b → runCalls c efd calls tbl fd = none := by
  induction calls generalizing tbl with
  | nil =>
    refine ⟨trivial, ?_⟩
    rintro fd m b rfl
    exact hnd.1
  | cons y rest ih =>
    obtain ⟨hy, hrest⟩ := hnd
    obtain ⟨h1, h2⟩ := ih _ hrest
    exact ⟨⟨hy, h1⟩, h2⟩

theorem lastAdd_snoc_add (calls : List RegCall) (fd m b : Int) :
    LastAddNotFollowedByDel (calls ++ [RegCall.add fd m b]) fd :=
  ⟨calls, [], m, b, rfl, (fun x hx => by cases hx), (fun x hx => by cases hx)⟩

theorem lastAdd_snoc_del (calls : List RegCall) (fd : Int) :
    ¬ LastAddNotFollowedByDel (calls ++ [RegCall.del fd]) fd := by
  rintro ⟨pre, post, m, b, heq, -, hdel⟩
  rcases List.eq_nil_or_concat post with rfl | ⟨post', y, rfl⟩
  · have := (List.append_inj' heq rfl).2
    cases this
  · rw [List.concat_eq_append, ← List.cons_append, ← List.append_assoc] at heq
    have hy := (List.append_inj' heq rfl).2
    have hy2 : y = RegCall.del fd := by injection hy with hy _; exact hy.symm
    exact hdel y (by rw [List.concat_eq_append]; simp) hy2

theorem lastAdd_snoc_other (calls : List RegCall) (fd : Int) (x : RegCall)
    (hadd : ∀ m b, x ≠ RegCall.add fd m b) (hdel : x ≠ RegCall.del fd) :
    LastAddNotFollowedByDel (calls ++ [x]) fd ↔ LastAddNotFollowedByDel calls fd := by
  constructor
  · rintro ⟨pre, post, m, b, heq, hA, hD⟩
    rcases List.eq_nil_or_concat post with rfl | ⟨post', y, rfl⟩
    · have := (List.append_inj' heq rfl).2
      have hx : x = RegCall.add fd m b := by injection this
      exact absurd hx (hadd m b)
    · rw [List.concat_eq_append] at heq hA hD
      rw [← List.cons_append, ← List.append_assoc] at heq
      have hpre := (List.append_inj' heq rfl).1
      exact ⟨pre, post', m, b, hpre,
        fun z hz => hA z (List.mem_append_left _ hz),
        fun z hz => hD z (List.mem_append_left _ hz)⟩
  · rintro ⟨pre, post, m, b, heq, hA, hD⟩
    refine ⟨pre, post ++ [x], m, b, by rw [heq]; simp, ?_, ?_⟩
    · intro z hz
      rcases List.mem_append.mp hz with hz | hz
      · exact hA z hz
      · rw [List.mem_singleton.mp hz]; exact hadd
    · intro z hz
      rcases List.mem_append.mp hz with hz | hz
      · exact hD z hz
      · rw [List.mem_singleton.mp hz]; exact hdel

theorem not_lastAdd_nil (fd : Int) : ¬ LastAddNotFollowedByDel [] fd := by
  rintro ⟨pre, post, m, b, heq, -, -⟩
  cases pre <;> cases heq

theorem mostRecentMode_snoc_other (calls : List RegCall) (fd : Int) (x : RegCall)
    (hne : x.fd ≠ fd) : mostRecentMode (calls ++ [x]) fd = mostRecentMode calls fd := by
  unfold mostRecentMode
  rw [List.filter_append]
  simp [hne]

theorem mostRecentMode_snoc_mode (calls : List RegCall) (fd m : Int) (x : RegCall)
    (hfd : x.fd = fd) (hm : x.mode = some m) : mostRecentMode (calls ++ [x]) fd = some m := by
  unfold mostRecentMode
  rw [List.filter_append]
  simp [hfd, hm]

/-- The table after a sequence of calls without double registration, at one
descriptor. -/
theorem registry_invariant (c : MkEpollConsts) (hc : c.WellFormed) (efd : Int)
    (calls : List RegCall) (hmodes : ∀ x ∈ calls, ∀ m, x.mode = some m → IsMode c m)
    (hnd : NoDoubleRegistration c efd calls InterestTable.empty) (fd : Int) :
    ((runCalls c efd calls InterestTable.empty fd).isSome ↔
        LastAddNotFollowedByDel calls fd) ∧
      (∀ ev, runCalls c efd calls InterestTable.empty fd = some ev →
        ev.fd = fd ∧ ∃ m, mostRecentMode calls fd = some m ∧
          ev.events &&& (EPOLLIN ||| EPOLLOUT) = modeBits c m) := by
  induction calls using List.reverseRecOn with
  | nil =>
    refine ⟨?_, ?_⟩
    · simp [runCalls, InterestTable.empty, not_lastAdd_nil]
    · intro ev hev
      simp [runCalls, InterestTable.empty] at hev
  | append_singleton l x ih =>
    obtain ⟨hndl, hxadd⟩ := noDoubleRegistration_snoc c efd l x _ hnd
    have hmodesl : ∀ y ∈ l, ∀ m, y.mode = some m → IsMode c m :=
      fun y hy => hmodes y (List.mem_append_left _ hy)
    have hmx : ∀ m, x.mode = some m → IsMode c m :=
      fun m => hmodes x (List.mem_append_right _ (List.mem_singleton.mpr rfl)) m
    obtain ⟨ihA, ihB⟩ := ih hmodesl hndl
    rw [runCalls_snoc]
    by_cases hfd : x.fd = fd
    · cases x with
      | add fd0 m b =>
        obtain rfl : fd0 = fd := hfd
        have habs := hxadd fd0 m b rfl
        rw [run_add_absent c efd fd0 m b _ habs]
        refine ⟨by simp [lastAdd_snoc_add], ?_⟩
        intro ev hev
        obtain rfl : mk_epoll_add_event c fd0 m b = ev := by injection hev
        exact ⟨rfl, m, mostRecentMode_snoc_mode l fd0 m _ rfl rfl,
          add_event_modeBits c hc fd0 m b (hmx m rfl)⟩
      | change_mode fd0 m =>
        obtain rfl : fd0 = fd := hfd
        have hiff := lastAdd_snoc_other l fd0 (RegCall.change_mode fd0 m)
          (fun m1 b1 hEq => by cases hEq) (fun hEq => by cases hEq)
        cases htbl : runCalls c efd l InterestTable.empty fd0 with
        | none =>
          rw [run_change_mode_absent c efd fd0 m _ htbl]
          rw [htbl] at ihA
          refine ⟨by rw [hiff]; exact ihA, ?_⟩
          intro ev hev
          cases hev
        | some ev0 =>
          rw [run_change_mode_present c efd fd0 m _ ev0 htbl]
          rw [htbl] at ihA
          refine ⟨by rw [hiff]; exact ihA, ?_⟩
          intro ev hev
          obtain rfl : mk_epoll_change_mode_event c fd0 m = ev := by injection hev
          exact ⟨rfl, m, mostRecentMode_snoc_mode l fd0 m _ rfl rfl,
            change_mode_event_modeBits c hc fd0 m (hmx m rfl)⟩
      | del fd0 =>
        obtain rfl : fd0 = fd := hfd
        rw [run_del]
        refine ⟨by simp [lastAdd_snoc_del], ?_⟩
        intro ev hev
        cases hev
    · rw [run_frame c efd x _ fd hfd, mostRecentMode_snoc_other l fd x hfd]
      have hiff := lastAdd_snoc_other l fd x
        (fun m1 b1 hEq => hfd (by rw [hEq]; rfl)) (fun hEq => hfd (by rw [hEq]; rfl))
      rw [hiff]
      exact ⟨ihA, ihB⟩

/-- C8: over the table model of the kernel, started from the empty table,
for every sequence of `mk_epoll_add`, `mk_epoll_change_mode`, `mk_epoll_del`
calls with modes among read, write, read-write in which no `add` finds its
descriptor registered, and for every descriptor: after the sequence the
descriptor is in the table iff its last `add` is not followed by a `del`;
when it is, its event carries the descriptor and the `EPOLLIN`/`EPOLLOUT`
part of its mask is that of the mode most recently applied to it by an
`add` or a `change_mode`; and a call on one descriptor leaves the entry of
every other descriptor as it was. -/
theorem registry_tracks_most_recent_mode (c : MkEpollConsts) (hc : c.WellFormed)
    (efd : Int) (calls : List RegCall)
    (hmodes : ∀ x ∈ calls, ∀ m, x.mode = some m → IsMode c m)
    (hnd : NoDoubleRegistration c efd calls InterestTable.empty) (fd : Int) :
    ((runCalls c efd calls InterestTable.empty fd).isSome ↔
        LastAddNotFollowedByDel calls fd) ∧
      (∀ ev, runCalls c efd calls InterestTable.empty fd = some ev →
        ev.fd = fd ∧ ∃ m, mostRecentMode calls fd = some m ∧
          ev.events &&& (EPOLLIN ||| EPOLLOUT) = modeBits c m) ∧
      (∀ (x : RegCall) (tbl : InterestTable) (other : Int), x.fd ≠ other →
        (x.run c efd tbl).2 other = tbl other) := by
  obtain ⟨hA, hB⟩ := registry_invariant c hc efd calls hmodes hnd fd
  exact ⟨hA, hB, fun x tbl other hne => run_frame c efd x tbl other hne⟩

/-- Descriptor 4 after `exampleCalls`: registered, with the write mode of
its `change_mode`. -/
theorem registry_tracks_most_recent_mode_witness :
    (exampleConsts.WellFormed ∧
      (∀ x ∈ exampleCalls, ∀ m, x.mode = some m → IsMode exampleConsts m) ∧
      NoDoubleRegistration exampleConsts 9 exampleCalls InterestTable.empty) ∧
    mostRecentMode exampleCalls 4 = some 1 ∧
    (∀ ev, runCalls exampleConsts 9 exampleCalls InterestTable.empty 4 = some ev →
      ev.fd = 4 ∧ ∃ m, mostRecentMode exampleCalls 4 = some m ∧
        ev.events &&& (EPOLLIN ||| EPOLLOUT) = modeBits exampleConsts m) :=
  ⟨⟨by decide, by simp [exampleCalls, RegCall.mode, IsMode, exampleConsts],
      ⟨rfl, rfl, trivial, trivial, trivial, trivial⟩⟩,
    by decide,
    (registry_tracks_most_recent_mode exampleConsts (by decide) 9 exampleCalls
      (by simp [exampleCalls, RegCall.mode, IsMode, exampleConsts])
      ⟨rfl, rfl, trivial, trivial, trivial, trivial⟩ 4).2.1⟩

end Monkey
